import Mathlib

/-!
# Shallow embedding of the Sequence-for-Friends rules engine

This file embeds the deterministic game-state engine of the repository
(shared/types.ts, server/src/rules/deck.ts, server/src/rules/sequences.ts,
server/src/rules/engine.ts, and the turn-timeout handler of server/src/index.ts)
and proves the specification claims about it.

Modelling conventions:
* Card codes are two-character strings, exactly as in the source
  (`CardCode = Rank ++ Suit`, e.g. "9D"; "W" marks the wild corners in the
  printed layout).
* Board coordinates are `Int` pairs; the sequence scanner of the source walks
  off the board edges (negative indices) before its bounds checks, so `Int`
  mirrors the JS numbers.  Cell accesses are guarded total functions that
  return `none` out of range; every access performed by the embedded code is
  in range, as in the source.
* JS `Set<string>` of `cellKey(row, col) = "row,col"` strings is modelled as an
  insertion-ordered duplicate-free list of coordinate pairs (`cellKey` is
  injective on coordinates, so the two are isomorphic).  JS `Map<number, _>` is
  an insertion-ordered association list.
* `Date.now()` is passed in as an explicit `now : Nat` argument; the
  cryptographic shuffle used by `reshuffleDiscards` is passed in as an explicit
  `reshuffle` function argument.
* The uuid/event activity log (`eventLog`, capped at 50 entries) is elided: it
  feeds only the client display and no claim nor any engine decision reads it.
-/

namespace Seq4F

/-- Card codes, as in shared/types.ts (`CardCode`). -/
abbrev CardCode := String

/-- The printed 10x10 board layout, transcribed from shared/types.ts
(`BOARD_LAYOUT`); "W" is a wild corner. -/
def BOARD_LAYOUT : List (List String) := [
  ["W",  "2S", "3S", "4S", "5S", "6S", "7S", "8S", "9S", "W" ],
  ["6C", "5C", "4C", "3C", "2C", "AH", "KH", "QH", "TH", "TS"],
  ["7C", "AS", "2D", "3D", "4D", "5D", "6D", "7D", "9H", "QS"],
  ["8C", "KS", "6C", "5C", "4C", "3C", "2C", "8D", "8H", "KS"],
  ["9C", "QS", "7C", "6H", "5H", "4H", "AH", "9D", "7H", "AS"],
  ["TC", "TS", "8C", "7H", "2H", "3H", "KH", "TD", "6H", "2D"],
  ["QC", "9S", "9C", "8H", "9H", "TH", "QH", "QD", "5H", "3D"],
  ["KC", "8S", "TC", "QC", "KC", "AC", "AD", "KD", "4H", "4D"],
  ["AC", "7S", "6S", "5S", "4S", "3S", "2S", "2H", "3H", "5D"],
  ["W",  "AD", "KD", "QD", "TD", "9D", "8D", "7D", "6D", "W" ]]

/-- The four wild corner cells (shared/types.ts `CORNER_POSITIONS`). -/
def CORNER_POSITIONS : List (Int × Int) := [(0, 0), (0, 9), (9, 0), (9, 9)]

/-- shared/types.ts `isCorner`. -/
def isCorner (row col : Int) : Bool :=
  CORNER_POSITIONS.any (fun p => p.1 == row && p.2 == col)

/-- shared/types.ts `TWO_EYED_JACKS` (wild placement). -/
def TWO_EYED_JACKS : List CardCode := ["JD", "JC"]

/-- shared/types.ts `ONE_EYED_JACKS` (chip removal). -/
def ONE_EYED_JACKS : List CardCode := ["JH", "JS"]

/-- Jack classification (shared/types.ts `JackType`). -/
inductive JackType where
  | twoEyed
  | oneEyed
deriving Repr, DecidableEq

/-- shared/types.ts `getJackType`. -/
def getJackType (card : CardCode) : Option JackType :=
  if TWO_EYED_JACKS.contains card then some .twoEyed
  else if ONE_EYED_JACKS.contains card then some .oneEyed
  else none

/-- shared/types.ts `isJack` (`card.startsWith('J')`): for a one-character
pattern, `startsWith` holds exactly when the first character is `J`. -/
def isJack (card : CardCode) : Bool := card.data.head? == some ('J')

/-- shared/types.ts `findCardPositions`: all board positions printed with this
card code, in row-major scan order. -/
def findCardPositions (card : CardCode) : List (Int × Int) :=
  (List.range 10).flatMap (fun r =>
    (List.range 10).filterMap (fun c =>
      if (BOARD_LAYOUT.getD r []).getD c "" == card then
        some ((r : Int), (c : Int))
      else none))

/-- The mutable chip grid: 10x10 of `team index | empty`
(shared/types.ts `BoardChips`). -/
abbrev BoardChips := List (List (Option Nat))

/-- Bounds check used throughout the scanners (sequences.ts `isValidPosition`). -/
def isValidPosition (row col : Int) : Bool :=
  decide (0 ≤ row ∧ row < 10 ∧ 0 ≤ col ∧ col < 10)

/-- Guarded read of `boardChips[row][col]`; `none` means empty.  The source
only indexes in range, so the out-of-range default is never exercised. -/
def getChip (b : BoardChips) (row col : Int) : Option Nat :=
  if isValidPosition row col then (b.getD row.toNat []).getD col.toNat none
  else none

/-- Write of `boardChips[row][col] = v`. -/
def setChip (b : BoardChips) (row col : Int) (v : Option Nat) : BoardChips :=
  if isValidPosition row col then
    b.set row.toNat ((b.getD row.toNat []).set col.toNat v)
  else b

/-- A JS `Set<string>` of `cellKey` strings, as an insertion-ordered
duplicate-free list of coordinate pairs. -/
abbrev CellSet := List (Int × Int)

/-- JS `Set.add`: append if absent. -/
def csAdd (s : CellSet) (cell : Int × Int) : CellSet :=
  if s.contains cell then s else s ++ [cell]

/-- A JS `Map<number, A>` as an insertion-ordered association list. -/
abbrev AList (A : Type) := List (Nat × A)

/-- JS `Map.get`: the value at the first (and only) entry with this key. -/
def alGet? {A : Type} (m : AList A) (k : Nat) : Option A :=
  match m with
  | [] => none
  | p :: rest => if p.1 == k then some p.2 else alGet? rest k

/-- JS `map.get(k) || dflt` (the default is only used for `undefined` here:
the stored values - sets, lists, positive counts - are never falsy in the
source when present, except counts of 0 where `0 || 0 = 0` agrees anyway). -/
def alGetD {A : Type} (m : AList A) (k : Nat) (dflt : A) : A :=
  (alGet? m k).getD dflt

/-- JS `Map.set`: update in place if present, append otherwise. -/
def alSet {A : Type} (m : AList A) (k : Nat) (v : A) : AList A :=
  match m with
  | [] => [(k, v)]
  | p :: rest => if p.1 == k then (k, v) :: rest else p :: alSet rest k v

/-- `lockedCells : Map<number, Set<string>>` - per-team locked cells. -/
abbrev LockedMap := AList CellSet

/-! ## sequences.ts (src/unnamed/part_002) -/

/-- A completed line candidate (shared/types.ts `SequenceLine`). -/
structure SequenceLine where
  cells : List (Int × Int)
  teamIndex : Nat
deriving Repr, DecidableEq

/-- The four undirected scan orientations (sequences.ts `DIRECTIONS`). -/
def DIRECTIONS : List (Int × Int) := [(0, 1), (1, 0), (1, 1), (1, -1)]

/-- sequences.ts `isCellOccupiedByTeam`: corners count for every team. -/
def isCellOccupiedByTeam (b : BoardChips) (row col : Int) (team : Nat) : Bool :=
  if isCorner row col then true else getChip b row col == some team

/-- The backward walk of `getSequencesThroughCell`: step against the direction
at most `fuel` times while the previous cell stays on the board and
orientation-team-occupied-or-corner. -/
def walkBack (b : BoardChips) (team : Nat) (dRow dCol : Int) :
    Nat → Int × Int → Int × Int
  | 0, pos => pos
  | n + 1, (row, col) =>
    let prevRow := row - dRow
    let prevCol := col - dCol
    if isValidPosition prevRow prevCol &&
        isCellOccupiedByTeam b prevRow prevCol team then
      walkBack b team dRow dCol n (prevRow, prevCol)
    else (row, col)

/-- The forward collection loop of `getSequencesThroughCell`: gather cells
while on the board and occupied-or-corner for the team.  The source loop is a
`while`; each step moves one cell along a direction with a nonzero component,
so from any start it runs at most 10 times before leaving the 10x10 board -
fuel 20 never truncates it. -/
def collectLine (b : BoardChips) (team : Nat) (dRow dCol : Int) :
    Nat → Int × Int → List (Int × Int)
  | 0, _ => []
  | n + 1, (row, col) =>
    if isValidPosition row col && isCellOccupiedByTeam b row col team then
      (row, col) :: collectLine b team dRow dCol n (row + dRow, col + dCol)
    else []

/-- sequences.ts `getSequencesThroughCell`: for each orientation, anchor by
walking back up to `len - 1` cells, collect the maximal run, and emit every
`len`-cell window of it that contains the target cell. -/
def getSequencesThroughCell (b : BoardChips) (targetRow targetCol : Int)
    (team : Nat) (len : Nat) : List SequenceLine :=
  DIRECTIONS.flatMap (fun d =>
    let start := walkBack b team d.1 d.2 (len - 1) (targetRow, targetCol)
    let line := collectLine b team d.1 d.2 20 start
    if len ≤ line.length then
      (List.range (line.length - len + 1)).filterMap (fun st =>
        let window := (line.drop st).take len
        if window.any (fun p => p.1 == targetRow && p.2 == targetCol) then
          some { cells := window, teamIndex := team }
        else none)
    else [])

/-- The non-corner-overlap count of `isValidSequenceOverlap`. -/
def nonCornerOverlap (cells : List (Int × Int)) (locked : CellSet) : Nat :=
  cells.countP (fun p => !isCorner p.1 p.2 && locked.contains p)

/-- sequences.ts `isValidSequenceOverlap`: a new sequence may share at most one
non-corner cell with the team's locked cells; corners are exempt. -/
def isValidSequenceOverlap (seq : SequenceLine) (locked : CellSet) : Bool :=
  nonCornerOverlap seq.cells locked ≤ 1

/-- Sorted-cell key used for deduplication (row-major lexicographic order,
matching the JS comparator `a[0]===b[0] ? a[1]-b[1] : a[0]-b[0]`). -/
def insertCell (p : Int × Int) : List (Int × Int) → List (Int × Int)
  | [] => [p]
  | q :: rest =>
    if p.1 < q.1 || (p.1 == q.1 && p.2 ≤ q.2) then p :: q :: rest
    else q :: insertCell p rest

/-- Sort a cell list by (row, col); the dedup key of `detectNewSequences`. -/
def sortCells (l : List (Int × Int)) : List (Int × Int) :=
  l.foldr insertCell []

/-- One step of the dedup pass: skip a sequence whose sorted-cell key has
been seen, otherwise emit it and record its key. -/
def dedupStep (acc : List SequenceLine × List (List (Int × Int)))
    (seq : SequenceLine) : List SequenceLine × List (List (Int × Int)) :=
  if acc.2.contains (sortCells seq.cells) then acc
  else (acc.1 ++ [seq], acc.2 ++ [sortCells seq.cells])

/-- The dedup pass of `detectNewSequences`: keep the first sequence for each
sorted-cell key. -/
def dedupSequences (seqs : List SequenceLine) : List SequenceLine :=
  (seqs.foldl dedupStep ([], [])).1

/-- The filter stage of `detectNewSequences`: drop windows already fully
covered by locked-or-corner cells, and - once the team has a prior sequence -
windows violating the overlap rule. -/
def sequenceFilter (locked : CellSet) (sequencesCompleted : Nat)
    (seq : SequenceLine) : Bool :=
  if seq.cells.all (fun p => locked.contains p || isCorner p.1 p.2) then false
  else if sequencesCompleted > 0 && !isValidSequenceOverlap seq locked then false
  else true

/-- sequences.ts `detectNewSequences`.  The `sequencesToWin` parameter is
declared but unused in the source body; it is kept for signature fidelity. -/
def detectNewSequences (b : BoardChips) (targetRow targetCol : Int)
    (team : Nat) (locked : CellSet) (sequencesCompleted : Nat)
    (_sequencesToWin : Nat) (len : Nat) : List SequenceLine :=
  let potential := getSequencesThroughCell b targetRow targetCol team len
  dedupSequences (potential.filter (sequenceFilter locked sequencesCompleted))

/-- sequences.ts `isCellLocked`: is the cell in any team's locked set. -/
def isCellLocked (m : LockedMap) (row col : Int) : Bool :=
  m.any (fun p => p.2.contains (row, col))

/-- sequences.ts `lockSequenceCells`: add every non-corner cell of the
sequence to its team's locked set. -/
def lockSequenceCells (m : LockedMap) (seq : SequenceLine) : LockedMap :=
  let teamCells := alGetD m seq.teamIndex []
  alSet m seq.teamIndex
    (seq.cells.foldl
      (fun acc cell => if isCorner cell.1 cell.2 then acc else csAdd acc cell)
      teamCells)

/-! ## Engine data model (shared/types.ts, engine.ts = src/unnamed/part_001) -/

/-- The engine-relevant player fields (shared/types.ts `Player`; name, token,
seat, color and connectivity never influence the engine and are elided). -/
structure Player where
  id : String
  teamIndex : Nat
  hand : List CardCode
  discardPile : List CardCode
deriving Repr, DecidableEq

/-- shared/types.ts `GameConfig` (team colors elided - display only). -/
structure GameConfig where
  playerCount : Nat
  teamCount : Nat
  sequencesToWin : Nat
  handSize : Nat
  sequenceLength : Nat
deriving Repr, DecidableEq

/-- shared/types.ts `GamePhase`. -/
inductive GamePhase where
  | lobby
  | cutting
  | playing
  | finished
deriving Repr, DecidableEq

/-- shared/types.ts `GameAction` (the discriminated union of the five kinds). -/
inductive GameAction where
  | draw
  | replaceDead (card : CardCode)
  | playNormal (card : CardCode) (targetRow targetCol : Int)
  | playTwoEyed (card : CardCode) (targetRow targetCol : Int)
  | playOneEyed (card : CardCode) (targetRow targetCol : Int)
deriving Repr, DecidableEq

/-- shared/types.ts `StalemateResult.reason`. -/
inductive StalemateReason where
  | highest_count
  | first_to_reach
deriving Repr, DecidableEq

/-- shared/types.ts `StalemateResult`. -/
structure StalemateResult where
  isStalemate : Bool
  winnerTeamIndex : Option Nat := none
  reason : Option StalemateReason := none
  sequenceCounts : Option (List Nat) := none
deriving Repr, DecidableEq

/-- shared/types.ts `MoveResult`. -/
structure MoveResult where
  success : Bool
  error : Option String := none
  action : Option GameAction := none
  playerId : Option String := none
  newSequences : Option (List SequenceLine) := none
  gameOver : Option Bool := none
  winnerTeamIndex : Option Nat := none
  stalemate : Option StalemateResult := none
deriving Repr, DecidableEq

/-- shared/types.ts `GameState` (cut-phase bookkeeping and the activity log
are elided; `sequenceTimestamps` holds, per team, the `Date.now()` value of
each completed sequence in completion order). -/
structure GameState where
  phase : GamePhase
  config : GameConfig
  players : List Player
  dealerIndex : Nat
  currentPlayerIndex : Nat
  deck : List CardCode
  boardChips : BoardChips
  lockedCells : LockedMap
  sequencesCompleted : AList Nat
  completedSequences : List SequenceLine
  deadCardReplacedThisTurn : Bool
  pendingDraw : Bool
  lastRemovedCell : Option (Int × Int)
  winnerTeamIndex : Option Nat
  lastMove : Option MoveResult
  turnTimeLimit : Nat
  turnStartedAt : Option Nat
  sequenceTimestamps : AList (List Nat)
deriving Repr, DecidableEq

/-- The `{valid, error?}` record returned by `isLegalMove`. -/
structure Validation where
  valid : Bool
  error : Option String := none
deriving Repr, DecidableEq

/-! ## engine.ts pure queries -/

/-- engine.ts `isDeadCard`: jacks are never dead; a non-jack card is dead iff
every printed position is occupied by any team. -/
def isDeadCard (card : CardCode) (boardChips : BoardChips) : Bool :=
  if isJack card then false
  else (findCardPositions card).all (fun p => (getChip boardChips p.1 p.2).isSome)

/-- engine.ts `getLegalTargets`. -/
def getLegalTargets (card : CardCode) (boardChips : BoardChips)
    (teamIndex : Nat) (lockedCells : LockedMap)
    (lastRemovedCell : Option (Int × Int)) : List (Int × Int) :=
  match getJackType card with
  | some .twoEyed =>
    -- any non-corner, empty cell except the cell removed this turn
    (List.range 10).flatMap (fun r =>
      (List.range 10).filterMap (fun c =>
        let row : Int := r
        let col : Int := c
        if isCorner row col then none
        else if (getChip boardChips row col).isSome then none
        else if lastRemovedCell == some (row, col) then none
        else some (row, col)))
  | some .oneEyed =>
    -- any non-corner cell of another team that is not locked
    (List.range 10).flatMap (fun r =>
      (List.range 10).filterMap (fun c =>
        let row : Int := r
        let col : Int := c
        if isCorner row col then none
        else if getChip boardChips row col == none then none
        else if getChip boardChips row col == some teamIndex then none
        else if isCellLocked lockedCells row col then none
        else some (row, col)))
  | none =>
    (findCardPositions card).filter (fun p =>
      getChip boardChips p.1 p.2 == none && !isCorner p.1 p.2)

/-- The `players[currentPlayerIndex].id !== playerId` turn check. -/
def currentPlayerIs (s : GameState) (playerId : String) : Bool :=
  match s.players.get? s.currentPlayerIndex with
  | some p => p.id == playerId
  | none => false

/-- The three `play-*` action kinds (`action.type` of a `PlayAction`). -/
inductive PlayKind where
  | normal
  | twoEyed
  | oneEyed
deriving Repr, DecidableEq

/-- The shared body of the three `play-*` legality branches of `isLegalMove`,
including the action-kind / jack-classification agreement checks. -/
def legalPlay (s : GameState) (player : Player) (kind : PlayKind)
    (card : CardCode) (targetRow targetCol : Int) : Validation :=
  if s.pendingDraw then
    { valid := false, error := some "You must draw a card to complete your turn" }
  else if !player.hand.contains card then
    { valid := false, error := some "You don\x27t have that card" }
  else if !(getLegalTargets card s.boardChips player.teamIndex s.lockedCells
      s.lastRemovedCell).any (fun p => p.1 == targetRow && p.2 == targetCol) then
    { valid := false, error := some "Invalid target position" }
  else if kind == .twoEyed && getJackType card != some .twoEyed then
    { valid := false, error := some "That card is not a two-eyed jack" }
  else if kind == .oneEyed && getJackType card != some .oneEyed then
    { valid := false, error := some "That card is not a one-eyed jack" }
  else if kind == .normal && getJackType card != none then
    { valid := false, error := some "Use the correct jack action" }
  else { valid := true }

/-- engine.ts `isLegalMove`. -/
def isLegalMove (s : GameState) (playerId : String) (a : GameAction) :
    Validation :=
  match s.players.find? (fun p => p.id == playerId) with
  | none => { valid := false, error := some "Player not found" }
  | some player =>
    if !currentPlayerIs s playerId then
      { valid := false, error := some "Not your turn" }
    else
      match a with
      | .draw =>
        if !s.pendingDraw then
          { valid := false, error := some "You must play a card first" }
        else { valid := true }
      | .replaceDead card =>
        if s.deadCardReplacedThisTurn then
          { valid := false, error := some "You can only replace one dead card per turn" }
        else if !player.hand.contains card then
          { valid := false, error := some "You don\x27t have that card" }
        else if !isDeadCard card s.boardChips then
          { valid := false, error := some "That card is not dead" }
        else { valid := true }
      | .playNormal card r c => legalPlay s player .normal card r c
      | .playTwoEyed card r c => legalPlay s player .twoEyed card r c
      | .playOneEyed card r c => legalPlay s player .oneEyed card r c

/-! ## Stalemate resolver (engine.ts `checkStalemate` and helpers) -/

/-- engine.ts `getLineOfN`: the `length` cells from a start in a direction, or
`none` when the line leaves the board. -/
def getLineOfN (startRow startCol dRow dCol : Int) (length : Nat) :
    Option (List (Int × Int)) :=
  let cells := (List.range length).map
    (fun i => (startRow + (i : Int) * dRow, startCol + (i : Int) * dCol))
  if cells.all (fun p => isValidPosition p.1 p.2) then some cells else none

/-- The cell walk of `canCompleteLineAsSequence`: `none` when the line hits an
opponent chip (locked or not - the source returns false in both sub-branches),
otherwise the number of cells already in the team's own locked set.  The two
source counters `overlapWithPrevious` and `alreadyLockedCells` are always
incremented together, so a single count represents both. -/
def lineLockedCount (line : List (Int × Int)) (b : BoardChips) (team : Nat)
    (locked : CellSet) : Option Nat :=
  line.foldl
    (fun acc p =>
      match acc with
      | none => none
      | some n =>
        if isCorner p.1 p.2 then some n
        else
          match getChip b p.1 p.2 with
          | some t =>
            if t != team then none
            else if locked.contains p then some (n + 1) else some n
          | none => if locked.contains p then some (n + 1) else some n)
    (some 0)

/-- engine.ts `canCompleteLineAsSequence`.  The `allLockedCells` argument of
the source is only read in the opponent-chip branch whose both sub-branches
return false, so it does not influence the result and is elided. -/
def canCompleteLineAsSequence (line : List (Int × Int)) (b : BoardChips)
    (team : Nat) (locked : CellSet) (sequencesCompleted : Nat) : Bool :=
  match lineLockedCount line b team locked with
  | none => false
  | some overlap =>
    if sequencesCompleted > 0 && overlap > 1 then false
    else
      let nonCornerCount := line.countP (fun p => !isCorner p.1 p.2)
      if nonCornerCount ≤ overlap then false else true

/-- engine.ts `canTeamCompleteSequence`: some `length`-cell line in some
orientation anchored somewhere is still completable for the team. -/
def canTeamCompleteSequence (b : BoardChips) (team : Nat) (locked : CellSet)
    (sequencesCompleted : Nat) (sequenceLength : Nat) : Bool :=
  DIRECTIONS.any (fun d =>
    (List.range 10).any (fun r =>
      (List.range 10).any (fun c =>
        match getLineOfN (r : Int) (c : Int) d.1 d.2 sequenceLength with
        | none => false
        | some line => canCompleteLineAsSequence line b team locked sequencesCompleted)))

/-- JS `timestamps[maxSequences - 1] || Infinity`: `none` plays the role of
`Infinity`; both a missing entry and the falsy timestamp `0` map to it. -/
def jsOrInfinity (t : Option Nat) : Option Nat :=
  match t with
  | none => none
  | some v => if v == 0 then none else some v

/-- Strict comparison on timestamps with `none` as `Infinity`. -/
def ltInfinity (a b : Option Nat) : Bool :=
  match a, b with
  | none, _ => false
  | some _, none => true
  | some x, some y => x < y

/-- The tie-break loop of `checkStalemate`: scan the tied `(index, count)`
teams keeping the strictly earliest `timestamps[max-1] || Infinity`. -/
def tieBreakFold (sequenceTimestamps : AList (List Nat)) (maxSequences : Nat)
    (teamsWithMax : List (Nat × Nat)) (init : Option Nat × Nat) :
    Option Nat × Nat :=
  teamsWithMax.foldl
    (fun acc t =>
      let timestamps := alGetD sequenceTimestamps t.1 []
      let timeToReachMax := jsOrInfinity (timestamps.get? (maxSequences - 1))
      if ltInfinity timeToReachMax acc.1 then (timeToReachMax, t.1) else acc)
    init

/-- `sequencesCompleted.get(i) || 0` as the stalemate resolver reads it. -/
def teamSequenceCount (s : GameState) (team : Nat) : Nat :=
  alGetD s.sequencesCompleted team 0

/-- The `sequenceCounts` array built at the top of `checkStalemate`. -/
def sequenceCountsOf (s : GameState) : List Nat :=
  (List.range s.config.teamCount).map (teamSequenceCount s)

/-- `Math.max(...sequenceCounts)` (the counts are naturals, so the empty
maximum is 0; the configured team count is always 2 or 3). -/
def maxSequenceCount (s : GameState) : Nat :=
  (sequenceCountsOf s).foldl max 0

/-- The loop body of the can-any-team-score scan: teams already at the win
threshold are skipped (`continue`), otherwise the exhaustive line test runs. -/
def teamCanScore (s : GameState) (teamIndex : Nat) : Bool :=
  if s.config.sequencesToWin ≤ teamSequenceCount s teamIndex then false
  else canTeamCompleteSequence s.boardChips teamIndex
    (alGetD s.lockedCells teamIndex []) (teamSequenceCount s teamIndex)
    s.config.sequenceLength

/-- The can-any-team-score scan of `checkStalemate` (a loop with break). -/
def canAnyTeamScore (s : GameState) : Bool :=
  (List.range s.config.teamCount).any (teamCanScore s)

/-- `teamsWithMax`: the `(index, count)` pairs with the maximal count. -/
def teamsWithMaxOf (s : GameState) : List (Nat × Nat) :=
  ((List.range s.config.teamCount).map
    (fun i => (i, teamSequenceCount s i))).filter
    (fun t => t.2 == maxSequenceCount s)

/-- The winner-selection part of `checkStalemate`, reached when no team can
score: highest count wins; a tie goes to the scan's earliest
`timestamps[max-1] || Infinity`; all-zero counts default to team 0. -/
def stalemateWinnerResult (s : GameState) : StalemateResult :=
  if maxSequenceCount s == 0 then
    { isStalemate := true, winnerTeamIndex := some 0,
      reason := some .highest_count,
      sequenceCounts := some (sequenceCountsOf s) }
  else if (teamsWithMaxOf s).length == 1 then
    { isStalemate := true,
      winnerTeamIndex :=
        some (((teamsWithMaxOf s).head?.map (fun t => t.1)).getD 0),
      reason := some .highest_count,
      sequenceCounts := some (sequenceCountsOf s) }
  else
    { isStalemate := true,
      winnerTeamIndex := some (tieBreakFold s.sequenceTimestamps
        (maxSequenceCount s) (teamsWithMaxOf s)
        (none, ((teamsWithMaxOf s).head?.map (fun t => t.1)).getD 0)).2,
      reason := some .first_to_reach,
      sequenceCounts := some (sequenceCountsOf s) }

/-- engine.ts `checkStalemate`. -/
def checkStalemate (s : GameState) : StalemateResult :=
  if canAnyTeamScore s then { isStalemate := false }
  else stalemateWinnerResult s

/-! ## Move application (engine.ts `applyMove`) and the timeout handler.

`applyMove` mutates the state in the source; here it returns the
`MoveResult` together with the successor state.  `now` stands for
`Date.now()` and `reshuffle` for the cryptographic `shuffleDeck` used by
`reshuffleDiscards` (which flattens every player's discard pile and
shuffles the result). -/

/-- Replace the first player with this id by `f` of it (JS mutates the
object `players.find` returned). -/
def updatePlayer (ps : List Player) (playerId : String) (f : Player → Player) :
    List Player :=
  match ps with
  | [] => []
  | p :: rest =>
    if p.id == playerId then f p :: rest else p :: updatePlayer rest playerId f

/-- The deck-refill step: when the deck is empty, collect every player's
discard pile, clear them all, and install the reshuffled collection as the
new deck (engine.ts draw / replace-dead branches). -/
def refillDeckIfEmpty (s : GameState)
    (reshuffle : List CardCode → List CardCode) : GameState :=
  if s.deck.isEmpty then
    { s with
      players := s.players.map (fun p => { p with discardPile := [] }),
      deck := reshuffle (s.players.map (fun p => p.discardPile)).flatten }
  else s

/-- `drawCard` into the player's hand: shift the deck head if any (a truly
exhausted deck is a no-op). -/
def drawOneCard (s : GameState) (playerId : String) : GameState :=
  match s.deck.head? with
  | some card =>
    { s with
      deck := s.deck.tail,
      players := updatePlayer s.players playerId
        (fun p => { p with hand := p.hand ++ [card] }) }
  | none => s

/-- The state bookkeeping of the draw branch before the stalemate check:
refill and draw, clear the turn flags, advance the current player. -/
def drawEndTurn (s : GameState) (playerId : String)
    (reshuffle : List CardCode → List CardCode) : GameState :=
  let s1 := drawOneCard (refillDeckIfEmpty s reshuffle) playerId
  { s1 with
    pendingDraw := false,
    deadCardReplacedThisTurn := false,
    lastRemovedCell := none,
    currentPlayerIndex := (s1.currentPlayerIndex + 1) % s1.players.length }

/-- Move the named card from the acting player's hand to the top of their
discard pile (`indexOf` + `splice(i, 1)` removes the first occurrence; the
validation has already established the card is in hand). -/
def cardToDiscard (s : GameState) (playerId : String) (card : CardCode) :
    GameState :=
  { s with
    players := updatePlayer s.players playerId
      (fun p => { p with
        hand := p.hand.erase card,
        discardPile := p.discardPile ++ [card] }) }

/-- The chip-placing branch shared by play-normal and play-two-eyed: place
the chip, detect sequences through it, commit only the first accepted
sequence, and end by requiring a draw. -/
def applyPlaceChip (s : GameState) (playerId : String) (player : Player)
    (card : CardCode) (r c : Int) (now : Nat) (result : MoveResult) :
    MoveResult × GameState :=
  let s1 := cardToDiscard s playerId card
  let s2 := { s1 with
    boardChips := setChip s1.boardChips r c (some player.teamIndex) }
  let teamLockedCells := alGetD s2.lockedCells player.teamIndex []
  let sequencesCompleted := alGetD s2.sequencesCompleted player.teamIndex 0
  let newSequences := detectNewSequences s2.boardChips r c player.teamIndex
    teamLockedCells sequencesCompleted s2.config.sequencesToWin
    s2.config.sequenceLength
  match newSequences.head? with
  | none => (result, { s2 with pendingDraw := true, lastMove := some result })
  | some sequence =>
    let s3 := { s2 with
      lockedCells := lockSequenceCells s2.lockedCells sequence,
      sequencesCompleted := alSet s2.sequencesCompleted player.teamIndex
        (alGetD s2.sequencesCompleted player.teamIndex 0 + 1),
      sequenceTimestamps := alSet s2.sequenceTimestamps player.teamIndex
        (alGetD s2.sequenceTimestamps player.teamIndex [] ++ [now]),
      completedSequences := s2.completedSequences ++ [sequence] }
    let newCount := alGetD s2.sequencesCompleted player.teamIndex 0 + 1
    if s2.config.sequencesToWin ≤ newCount then
      let result1 := { result with
        newSequences := some [sequence],
        gameOver := some true,
        winnerTeamIndex := some player.teamIndex }
      (result1, { s3 with
        winnerTeamIndex := some player.teamIndex,
        phase := .finished,
        pendingDraw := true,
        lastMove := some result1 })
    else
      let result1 := { result with newSequences := some [sequence] }
      (result1, { s3 with pendingDraw := true, lastMove := some result1 })

/-- engine.ts `applyMove`: validate, then apply; illegal moves fail with the
validation's reason and change nothing. -/
def applyMove (s : GameState) (playerId : String) (a : GameAction) (now : Nat)
    (reshuffle : List CardCode → List CardCode) : MoveResult × GameState :=
  let validation := isLegalMove s playerId a
  if !validation.valid then
    ({ success := false, error := validation.error }, s)
  else
    match s.players.find? (fun p => p.id == playerId) with
    | none =>
      -- unreachable: a valid move implies the player was found
      ({ success := false, error := validation.error }, s)
    | some player =>
      let result : MoveResult :=
        { success := true, action := some a, playerId := some playerId }
      match a with
      | .draw =>
        let s1 := drawEndTurn s playerId reshuffle
        if s1.phase == .playing then
          let stalemateResult := checkStalemate s1
          match stalemateResult.isStalemate, stalemateResult.winnerTeamIndex with
          | true, some w =>
            ({ result with
                gameOver := some true,
                winnerTeamIndex := some w,
                stalemate := some stalemateResult },
             { s1 with winnerTeamIndex := some w, phase := .finished })
          | _, _ => (result, s1)
        else (result, s1)
      | .replaceDead card =>
        let s1 := cardToDiscard s playerId card
        let s2 := drawOneCard (refillDeckIfEmpty s1 reshuffle) playerId
        (result, { s2 with deadCardReplacedThisTurn := true })
      | .playOneEyed card r c =>
        let s1 := cardToDiscard s playerId card
        let s2 := { s1 with
          boardChips := setChip s1.boardChips r c none,
          lastRemovedCell := some (r, c) }
        (result, { s2 with pendingDraw := true, lastMove := some result })
      | .playNormal card r c =>
        applyPlaceChip s playerId player card r c now result
      | .playTwoEyed card r c =>
        applyPlaceChip s playerId player card r c now result

/-- The turn-timeout handler of server/src/index.ts (`handleTurnTimeout`),
restricted to its game-state effect (socket notifications and the timer
rescheduling act outside the state).  No card is drawn and the deck and
hands are untouched; the turn state is reset and the turn passes on. -/
def handleTurnTimeout (s : GameState) (now : Nat) : GameState :=
  if s.phase != .playing then s
  else
    { s with
      deadCardReplacedThisTurn := false,
      pendingDraw := false,
      lastRemovedCell := none,
      currentPlayerIndex := (s.currentPlayerIndex + 1) % s.players.length,
      turnStartedAt := if 0 < s.turnTimeLimit then some now else none }

/-! ## Specification-side definitions

Definitions written from the specification text (not from the source), used
to compare the code's behaviour with the spec's words. -/

/-- Spec reading, stalemate tie-break: "the timestamp at which they reached
that count" - the `count`-th recorded completion timestamp of the team. -/
def reachedCountAt (s : GameState) (team count : Nat) : Option Nat :=
  (alGetD s.sequenceTimestamps team []).get? (count - 1)

/-- The timestamp the source actually compares during the tie-break: the
`count`-th entry passed through `|| Infinity`, which also maps the falsy
timestamp `0` to `Infinity` (`none`). -/
def adjustedReachedCountAt (s : GameState) (team count : Nat) : Option Nat :=
  jsOrInfinity (reachedCountAt s team count)

/-! ## Concrete fixtures for witnesses and counterexamples -/

/-- A 10x10 grid with no chips. -/
def emptyBoard : BoardChips := List.replicate 10 (List.replicate 10 none)

/-- Place a list of `(row, col, team)` chips. -/
def putChips (b : BoardChips) (l : List (Int × Int × Nat)) : BoardChips :=
  l.foldl (fun acc t => setChip acc t.1 t.2.1 (some t.2.2)) b

/-- 2-player, 2-team default configuration. -/
def testConfig : GameConfig :=
  { playerCount := 2, teamCount := 2, sequencesToWin := 2, handSize := 7,
    sequenceLength := 5 }

def testPlayer0 : Player :=
  { id := "p0", teamIndex := 0, hand := ["9D", "2S"], discardPile := [] }

def testPlayer1 : Player :=
  { id := "p1", teamIndex := 1, hand := ["3H"], discardPile := [] }

/-- A fresh playing-phase state, player p0 to act, nothing pending. -/
def baseState : GameState :=
  { phase := .playing,
    config := testConfig,
    players := [testPlayer0, testPlayer1],
    dealerIndex := 0,
    currentPlayerIndex := 0,
    deck := ["3C", "4C"],
    boardChips := emptyBoard,
    lockedCells := [],
    sequencesCompleted := [],
    completedSequences := [],
    deadCardReplacedThisTurn := false,
    pendingDraw := false,
    lastRemovedCell := none,
    winnerTeamIndex := none,
    lastMove := none,
    turnTimeLimit := 0,
    turnStartedAt := none,
    sequenceTimestamps := [] }

/-- Board occupying both printed positions of "9D" ((4,7) and (9,5)) with
team-1 chips, making "9D" dead. -/
def deadNineBoard : BoardChips := putChips emptyBoard [(4, 7, 1), (9, 5, 1)]

/-- State in which p0 has already played this turn (`pendingDraw = true`)
while holding the dead card "9D". -/
def pendingDrawDeadState : GameState :=
  { baseState with pendingDraw := true, boardChips := deadNineBoard }

/-- State in which a one-eyed removal vacated (0,1) - a printed position of
"2S" - this turn (with `pendingDraw` false, as the claim quantifies over all
states in which `lastRemovedCell` is set). -/
def lastRemovedState : GameState :=
  { baseState with lastRemovedCell := some (0, 1) }

/-- Replace-dead fixture with an exhausted deck and empty discard piles: the
reshuffle collects exactly the card just discarded. -/
def emptyDeckDeadState : GameState :=
  { baseState with
    deck := [],
    boardChips := deadNineBoard,
    players := [{ id := "p0", teamIndex := 0, hand := ["9D"], discardPile := [] },
                testPlayer1] }

/-- A fully blocked board: team `(r / 2 + c) % 2` at every cell.  Along every
orientation the same-team runs have length at most 2, so every 5-cell line
contains non-corner chips of both teams and no team can complete a sequence. -/
def blockedBoard : BoardChips :=
  (List.range 10).map (fun r => (List.range 10).map (fun c => some ((r / 2 + c) % 2)))

/-- Stalemate fixture: both teams tied at 2 sequences (below the win
threshold 4); team 0 reached its 2nd sequence at timestamp 0, team 1 at
timestamp 5.  The claim's tie-break ("earliest wins") picks team 0; the
source's `|| Infinity` treats the falsy timestamp 0 as missing and picks
team 1. -/
def staleTieState : GameState :=
  { baseState with
    boardChips := blockedBoard,
    pendingDraw := true,
    config := { testConfig with sequencesToWin := 4 },
    sequencesCompleted := [(0, 2), (1, 2)],
    sequenceTimestamps := [(0, [0, 0]), (1, [3, 5])] }

/-- Chips forming an open-ended horizontal four for team 0 in row 2; playing
"2D" on its printed position (2,2) completes a five-sequence. -/
def fourInRowBoard : BoardChips :=
  putChips emptyBoard [(2, 3, 0), (2, 4, 0), (2, 5, 0), (2, 6, 0)]

/-- State where p0 holds "2D" and can complete a sequence at (2,2). -/
def sequenceReadyState : GameState :=
  { baseState with
    boardChips := fourInRowBoard,
    players := [{ id := "p0", teamIndex := 0, hand := ["2D"], discardPile := [] },
                testPlayer1] }

/-- State where p0 has played a card and owes a draw. -/
def pendingDrawState : GameState :=
  { baseState with pendingDraw := true }

/-- Board with a locked team-1 chip at (2,2) and a free team-1 chip at (5,5). -/
def lockedChipState : GameState :=
  { baseState with
    boardChips := putChips emptyBoard [(2, 2, 1), (5, 5, 1)],
    lockedCells := [(1, [(2, 2)])] }

/-- A locked first sequence of team 0 along row 2, columns 2..6. -/
def overlapLockedSet : CellSet := [(2, 2), (2, 3), (2, 4), (2, 5), (2, 6)]

/-- Row-2 chips plus a vertical run in column 4: the vertical window through
(5,4) shares exactly the one cell (2,4) with the locked row. -/
def overlapAcceptBoard : BoardChips :=
  putChips emptyBoard [(2, 2, 0), (2, 3, 0), (2, 4, 0), (2, 5, 0), (2, 6, 0),
    (1, 4, 0), (3, 4, 0), (4, 4, 0), (5, 4, 0)]

/-- The same position extended by (2,7): the horizontal window through (2,7)
shares four locked cells with the locked row. -/
def overlapRejectBoard : BoardChips := putChips overlapAcceptBoard [(2, 7, 0)]

/-- The vertical candidate window through (5,4). -/
def acceptSeq : SequenceLine :=
  { cells := [(1, 4), (2, 4), (3, 4), (4, 4), (5, 4)], teamIndex := 0 }

/-- The horizontal candidate window through (2,7). -/
def rejectSeq : SequenceLine :=
  { cells := [(2, 3), (2, 4), (2, 5), (2, 6), (2, 7)], teamIndex := 0 }

/-! ## Basic facts about the legality checker -/

theorem legalPlay_invalid_has_error (s : GameState) (player : Player)
    (kind : PlayKind) (card : CardCode) (r c : Int)
    (h : (legalPlay s player kind card r c).valid = false) :
    ∃ msg, (legalPlay s player kind card r c).error = some msg := by
  unfold legalPlay at h ⊢
  split_ifs at h ⊢ <;> simp_all

theorem isLegalMove_invalid_has_error (s : GameState) (playerId : String)
    (a : GameAction) (h : (isLegalMove s playerId a).valid = false) :
    ∃ msg, (isLegalMove s playerId a).error = some msg := by
  rcases hf : s.players.find? (fun p => p.id == playerId) with _ | player
  · exact ⟨"Player not found", by simp [isLegalMove, hf]⟩
  · cases a <;>
      simp only [isLegalMove, hf] at h ⊢ <;>
      split_ifs at h ⊢ <;>
      first
        | (exact legalPlay_invalid_has_error _ _ _ _ _ _ h)
        | simp_all

theorem isLegalMove_valid_find (s : GameState) (playerId : String)
    (a : GameAction) (h : (isLegalMove s playerId a).valid = true) :
    ∃ p, s.players.find? (fun q => q.id == playerId) = some p := by
  rcases hf : s.players.find? (fun p => p.id == playerId) with _ | player
  · simp [isLegalMove, hf] at h
  · exact ⟨player, hf⟩

theorem currentPlayerIs_find (s : GameState) (playerId : String)
    (h : currentPlayerIs s playerId = true) :
    ∃ p, s.players.find? (fun q => q.id == playerId) = some p := by
  unfold currentPlayerIs at h
  split at h
  case _ p hg =>
    have hmem : p ∈ s.players := List.get?_mem hg
    have hs : (s.players.find? (fun q => q.id == playerId)).isSome :=
      List.find?_isSome.mpr ⟨p, hmem, h⟩
    rcases Option.isSome_iff_exists.mp hs with ⟨q, hq⟩
    exact ⟨q, hq⟩
  case _ => exact absurd h (by simp)

theorem applyMove_invalid (s : GameState) (playerId : String) (a : GameAction)
    (now : Nat) (reshuffle : List CardCode → List CardCode)
    (h : (isLegalMove s playerId a).valid = false) :
    applyMove s playerId a now reshuffle =
      ({ success := false, error := (isLegalMove s playerId a).error }, s) := by
  unfold applyMove
  simp [h]

/-- C4: whenever `isLegalMove` reports an action invalid, `applyMove` returns
`success = false` with a reason string and leaves the entire game state
unchanged - no field, hand, board cell or deck content is modified. -/
theorem C4_illegal_moves_fail_atomically (s : GameState) (playerId : String)
    (a : GameAction) (now : Nat) (reshuffle : List CardCode → List CardCode)
    (h : (isLegalMove s playerId a).valid = false) :
    (applyMove s playerId a now reshuffle).1.success = false ∧
    (∃ msg, (applyMove s playerId a now reshuffle).1.error = some msg) ∧
    (applyMove s playerId a now reshuffle).2 = s := by
  rw [applyMove_invalid s playerId a now reshuffle h]
  exact ⟨rfl, isLegalMove_invalid_has_error s playerId a h, rfl⟩

/-- Witness for C4: drawing out of turn is invalid and leaves the fixture
state untouched. -/
theorem C4_illegal_moves_fail_atomically_witness :
    (isLegalMove baseState "p1" GameAction.draw).valid = false ∧
    ((applyMove baseState "p1" GameAction.draw 0 id).1.success = false ∧
      (∃ msg, (applyMove baseState "p1" GameAction.draw 0 id).1.error = some msg) ∧
      (applyMove baseState "p1" GameAction.draw 0 id).2 = baseState) :=
  ⟨by decide,
   C4_illegal_moves_fail_atomically baseState "p1" GameAction.draw 0 id (by decide)⟩

/-- C8: in the playing phase the turn-timeout handler advances
`currentPlayerIndex` by exactly one modulo the player count, clears
`pendingDraw`, `deadCardReplacedThisTurn` and `lastRemovedCell`, and leaves
the deck and every player's hand unchanged - no card is drawn. -/
theorem C8_timeout_advances_without_drawing (s : GameState) (now : Nat)
    (h : s.phase = .playing) :
    (handleTurnTimeout s now).currentPlayerIndex =
      (s.currentPlayerIndex + 1) % s.players.length ∧
    (handleTurnTimeout s now).pendingDraw = false ∧
    (handleTurnTimeout s now).deadCardReplacedThisTurn = false ∧
    (handleTurnTimeout s now).lastRemovedCell = none ∧
    (handleTurnTimeout s now).deck = s.deck ∧
    (handleTurnTimeout s now).players = s.players := by
  simp [handleTurnTimeout, h]

/-- Witness for C8 at the fixture state. -/
theorem C8_timeout_advances_without_drawing_witness :
    baseState.phase = .playing ∧
    ((handleTurnTimeout baseState 42).currentPlayerIndex =
        (baseState.currentPlayerIndex + 1) % baseState.players.length ∧
      (handleTurnTimeout baseState 42).pendingDraw = false ∧
      (handleTurnTimeout baseState 42).deadCardReplacedThisTurn = false ∧
      (handleTurnTimeout baseState 42).lastRemovedCell = none ∧
      (handleTurnTimeout baseState 42).deck = baseState.deck ∧
      (handleTurnTimeout baseState 42).players = baseState.players) :=
  ⟨rfl, C8_timeout_advances_without_drawing baseState 42 rfl⟩

/-- C9: a non-jack card is dead iff every one of its printed positions holds
a chip of any team, and each of the four jacks (two-eyed "JD"/"JC", one-eyed
"JH"/"JS") is never dead on any board. -/
theorem C9_dead_card_characterisation (b : BoardChips) (card : CardCode) :
    (isDeadCard card b = true ↔
      (isJack card = false ∧
        ∀ p ∈ findCardPositions card, (getChip b p.1 p.2).isSome = true)) ∧
    isDeadCard "JD" b = false ∧ isDeadCard "JC" b = false ∧
    isDeadCard "JH" b = false ∧ isDeadCard "JS" b = false := by
  refine ⟨?_, ?_, ?_, ?_, ?_⟩
  · unfold isDeadCard
    cases hj : isJack card <;> simp [hj, List.all_eq_true]
  all_goals simp [isDeadCard, show isJack "JD" = true by decide,
    show isJack "JC" = true by decide, show isJack "JH" = true by decide,
    show isJack "JS" = true by decide]

/-- C2 counterexample: with `pendingDraw = true` the current player's
`replace-dead` action on a dead card is *accepted* by `isLegalMove`, not
rejected with a pending-draw error as the claim states. -/
theorem C2_counterexample_replace_dead_legal_while_pending :
    pendingDrawDeadState.pendingDraw = true ∧
    currentPlayerIs pendingDrawDeadState "p0" = true ∧
    isLegalMove pendingDrawDeadState "p0" (GameAction.replaceDead "9D") =
      { valid := true, error := none } :=
  ⟨rfl, by decide, by decide⟩

/-- C2 (amended): for the current player, while `pendingDraw` is true every
`play-*` action is rejected with the pending-draw error; `replace-dead`
legality is independent of `pendingDraw`; and while `pendingDraw` is false a
`draw` is rejected. -/
theorem C2_pending_draw_gating (s : GameState) (playerId : String)
    (hcur : currentPlayerIs s playerId = true) :
    (s.pendingDraw = true → ∀ card r c,
      isLegalMove s playerId (.playNormal card r c) =
        { valid := false,
          error := some "You must draw a card to complete your turn" } ∧
      isLegalMove s playerId (.playTwoEyed card r c) =
        { valid := false,
          error := some "You must draw a card to complete your turn" } ∧
      isLegalMove s playerId (.playOneEyed card r c) =
        { valid := false,
          error := some "You must draw a card to complete your turn" }) ∧
    (s.pendingDraw = false →
      isLegalMove s playerId .draw =
        { valid := false, error := some "You must play a card first" }) ∧
    (∀ card b,
      isLegalMove { s with pendingDraw := b } playerId (.replaceDead card) =
        isLegalMove s playerId (.replaceDead card)) := by
  obtain ⟨p, hf⟩ := currentPlayerIs_find s playerId hcur
  refine ⟨fun hpd card r c => ?_, fun hpd => ?_, fun card b => rfl⟩
  · exact ⟨by simp [isLegalMove, hf, hcur, legalPlay, hpd],
      by simp [isLegalMove, hf, hcur, legalPlay, hpd],
      by simp [isLegalMove, hf, hcur, legalPlay, hpd]⟩
  · simp [isLegalMove, hf, hcur, hpd]

/-- Witness for C2 (amended): at the fixture state the pending-draw error is
produced for a play, and a fresh state rejects a premature draw. -/
theorem C2_pending_draw_gating_witness :
    currentPlayerIs pendingDrawDeadState "p0" = true ∧
    isLegalMove pendingDrawDeadState "p0" (GameAction.playNormal "2S" 0 1) =
      { valid := false,
        error := some "You must draw a card to complete your turn" } ∧
    currentPlayerIs baseState "p0" = true ∧
    isLegalMove baseState "p0" GameAction.draw =
      { valid := false, error := some "You must play a card first" } :=
  ⟨by decide,
   ((C2_pending_draw_gating pendingDrawDeadState "p0" (by decide)).1 rfl "2S" 0 1).1,
   by decide,
   (C2_pending_draw_gating baseState "p0" (by decide)).2.1 rfl⟩

/-- C3 counterexample: with `lastRemovedCell = (0,1)` ((0,1) is a printed
position of "2S" and is empty), the play-normal action targeting exactly that
cell is *accepted*: normal-card targets are not filtered by
`lastRemovedCell`, contrary to the claim. -/
theorem C3_counterexample_play_normal_on_removed_cell :
    lastRemovedState.lastRemovedCell = some (0, 1) ∧
    (0, 1) ∈ getLegalTargets "2S" lastRemovedState.boardChips 0
      lastRemovedState.lockedCells lastRemovedState.lastRemovedCell ∧
    isLegalMove lastRemovedState "p0" (GameAction.playNormal "2S" 0 1) =
      { valid := true, error := none } :=
  ⟨rfl, by decide, by decide⟩

/-- C3 (amended): while `lastRemovedCell` is set it is never a legal target
of a `play-two-eyed` action (normal-card targets are not filtered by it), and
it is cleared to `none` whenever a turn ends - by a completed draw or by a
turn timeout. -/
theorem C3_last_removed_cell_handling :
    (∀ card b team locked r c, getJackType card = some .twoEyed →
      (r, c) ∉ getLegalTargets card b team locked (some (r, c))) ∧
    (∀ s playerId now reshuffle,
      (isLegalMove s playerId GameAction.draw).valid = true →
      (applyMove s playerId GameAction.draw now reshuffle).2.lastRemovedCell = none) ∧
    (∀ s now, s.phase = .playing →
      (handleTurnTimeout s now).lastRemovedCell = none) := by
  refine ⟨fun card b team locked r c hjack hmem => ?_,
    fun s playerId now reshuffle hvalid => ?_, fun s now hphase => ?_⟩
  · rw [getLegalTargets, hjack] at hmem
    simp only [List.mem_flatMap, List.mem_filterMap, List.mem_range] at hmem
    obtain ⟨r2, _, c2, _, heq⟩ := hmem
    split_ifs at heq with h1 h2 h3
    simp_all
  · obtain ⟨p, hf⟩ := isLegalMove_valid_find s playerId .draw hvalid
    simp only [applyMove, hvalid, Bool.not_true, hf]
    simp only [Bool.false_eq_true, if_false]
    split
    · split <;> simp [drawEndTurn]
    · simp [drawEndTurn]
  · simp [handleTurnTimeout, hphase]

/-- Witness for C3 (amended): the two-eyed exclusion at (5,5), the clearing
draw from the pending fixture, and the clearing timeout. -/
theorem C3_last_removed_cell_handling_witness :
    getJackType "JD" = some JackType.twoEyed ∧
    (5, 5) ∉ getLegalTargets "JD" emptyBoard 0 [] (some (5, 5)) ∧
    (isLegalMove pendingDrawState "p0" GameAction.draw).valid = true ∧
    (applyMove pendingDrawState "p0" GameAction.draw 9 id).2.lastRemovedCell = none ∧
    baseState.phase = .playing ∧
    (handleTurnTimeout baseState 9).lastRemovedCell = none :=
  ⟨by decide,
   C3_last_removed_cell_handling.1 "JD" emptyBoard 0 [] 5 5 (by decide),
   by decide,
   C3_last_removed_cell_handling.2.1 pendingDrawState "p0" 9 id (by decide),
   rfl,
   C3_last_removed_cell_handling.2.2 baseState 9 rfl⟩

/-! ## Locked-cell bookkeeping lemmas -/

theorem alGet?_alSet_self {A : Type} (m : AList A) (k : Nat) (v : A) :
    alGet? (alSet m k v) k = some v := by
  induction m with
  | nil => simp [alSet, alGet?]
  | cons p rest ih =>
    unfold alSet
    by_cases h : p.1 = k
    · simp [h, alGet?]
    · simp [h, alGet?, ih]

theorem alGet?_alSet_ne {A : Type} (m : AList A) (k j : Nat) (v : A)
    (h : j ≠ k) : alGet? (alSet m k v) j = alGet? m j := by
  induction m with
  | nil => simp [alSet, alGet?, beq_iff_eq, Ne.symm h]
  | cons p rest ih =>
    unfold alSet
    by_cases hp : p.1 = k
    · simp [hp, alGet?, Ne.symm h, h]
    · simp [hp, alGet?, ih]

theorem mem_csAdd (s : CellSet) (p q : Int × Int) :
    q ∈ csAdd s p ↔ q ∈ s ∨ q = p := by
  unfold csAdd
  split
  · next hc =>
    constructor
    · exact fun h => Or.inl h
    · rintro (h | rfl)
      · exact h
      · exact List.mem_of_elem_eq_true hc
  · simp

/-- Membership after the cell-locking fold of `lockSequenceCells`. -/
theorem mem_lockFold (cells : List (Int × Int)) (init : CellSet) (q : Int × Int) :
    (q ∈ cells.foldl
        (fun acc cell => if isCorner cell.1 cell.2 then acc else csAdd acc cell)
        init) ↔
      q ∈ init ∨ (q ∈ cells ∧ isCorner q.1 q.2 = false) := by
  induction cells generalizing init with
  | nil => simp
  | cons c rest ih =>
    simp only [List.foldl_cons]
    by_cases hc : isCorner c.1 c.2
    · rw [if_pos hc, ih]
      constructor
      · rintro (h | h)
        · exact Or.inl h
        · exact Or.inr ⟨List.mem_cons_of_mem c h.1, h.2⟩
      · rintro (h | ⟨hm, hnc⟩)
        · exact Or.inl h
        · rcases List.mem_cons.mp hm with rfl | hm2
          · exact absurd hc (by simp [hnc])
          · exact Or.inr ⟨hm2, hnc⟩
    · rw [if_neg hc, ih, mem_csAdd]
      constructor
      · rintro ((h | rfl) | h)
        · exact Or.inl h
        · exact Or.inr ⟨List.mem_cons_self _ _, by simp [hc]⟩
        · exact Or.inr ⟨List.mem_cons_of_mem _ h.1, h.2⟩
      · rintro (h | ⟨hm, hnc⟩)
        · exact Or.inl (Or.inl h)
        · rcases List.mem_cons.mp hm with rfl | hm2
          · exact Or.inl (Or.inr rfl)
          · exact Or.inr ⟨hm2, hnc⟩

/-- Membership in a team's locked set after committing a sequence: the old
cells plus the sequence's non-corner cells for its team. -/
theorem lockSequenceCells_mem (m : LockedMap) (seq : SequenceLine) (t : Nat)
    (cell : Int × Int) :
    cell ∈ alGetD (lockSequenceCells m seq) t [] ↔
      cell ∈ alGetD m t [] ∨
        (t = seq.teamIndex ∧ cell ∈ seq.cells ∧ isCorner cell.1 cell.2 = false) := by
  unfold lockSequenceCells
  by_cases ht : t = seq.teamIndex
  · subst ht
    rw [alGetD, alGet?_alSet_self, Option.getD_some, mem_lockFold]
    simp
  · rw [alGetD, alGet?_alSet_ne _ _ _ _ ht]
    simp [alGetD, ht]

theorem refillDeckIfEmpty_lockedCells (s : GameState)
    (reshuffle : List CardCode → List CardCode) :
    (refillDeckIfEmpty s reshuffle).lockedCells = s.lockedCells := by
  unfold refillDeckIfEmpty
  split <;> rfl

theorem drawOneCard_lockedCells (s : GameState) (playerId : String) :
    (drawOneCard s playerId).lockedCells = s.lockedCells := by
  unfold drawOneCard
  split <;> rfl

theorem drawEndTurn_lockedCells (s : GameState) (playerId : String)
    (reshuffle : List CardCode → List CardCode) :
    (drawEndTurn s playerId reshuffle).lockedCells = s.lockedCells := by
  simp [drawEndTurn, drawOneCard_lockedCells, refillDeckIfEmpty_lockedCells]

theorem cardToDiscard_lockedCells (s : GameState) (playerId : String)
    (card : CardCode) :
    (cardToDiscard s playerId card).lockedCells = s.lockedCells := rfl

/-- C7: a team's locked-cell set only grows under every applied operation and
under the timeout handler, and a one-eyed jack's legal targets are exactly
the in-range, non-corner cells occupied by another team and locked by no
team - in particular a locked cell is never a one-eyed target. -/
theorem C7_locked_cells_monotone_and_protected :
    (∀ s playerId a now reshuffle t cell,
      cell ∈ alGetD s.lockedCells t [] →
      cell ∈ alGetD (applyMove s playerId a now reshuffle).2.lockedCells t []) ∧
    (∀ s now, (handleTurnTimeout s now).lockedCells = s.lockedCells) ∧
    (∀ card b team locked last r c, getJackType card = some .oneEyed →
      ((r, c) ∈ getLegalTargets card b team locked last ↔
        (isValidPosition r c = true ∧ isCorner r c = false ∧
          (∃ t2, getChip b r c = some t2 ∧ t2 ≠ team) ∧
          isCellLocked locked r c = false))) ∧
    (∀ card b team locked last r c, getJackType card = some .oneEyed →
      isCellLocked locked r c = true →
      (r, c) ∉ getLegalTargets card b team locked last) := by
  have htargets : ∀ card b (team : Nat) locked last (r c : Int),
      getJackType card = some .oneEyed →
      ((r, c) ∈ getLegalTargets card b team locked last ↔
        (isValidPosition r c = true ∧ isCorner r c = false ∧
          (∃ t2, getChip b r c = some t2 ∧ t2 ≠ team) ∧
          isCellLocked locked r c = false)) := by
    intro card b team locked last r c hjack
    rw [getLegalTargets, hjack]
    constructor
    · intro hmem
      simp only [List.mem_flatMap, List.mem_filterMap, List.mem_map,
        List.mem_range, List.pure_def, List.bind_eq_flatMap,
        List.mem_singleton] at hmem
      obtain ⟨r2, hr2, c2, ⟨c2n, hc2n, rfl⟩, heq⟩ := hmem
      split_ifs at heq with hcorn hempty hown hlock
      obtain ⟨rfl, rfl⟩ : (r2 : Int) = r ∧ ((c2n : Int)) = c := by
        simpa using heq
      obtain ⟨t2, hchip⟩ :
          ∃ t2, getChip b (r2 : Int) (c2n : Int) = some t2 := by
        rcases hg : getChip b (r2 : Int) (c2n : Int) with _ | t2
        · exact absurd hg (by simpa using hempty)
        · exact ⟨t2, rfl⟩
      refine ⟨by simp [isValidPosition]; omega, by simpa using hcorn,
        ⟨t2, hchip, ?_⟩, by simpa using hlock⟩
      intro hteq
      subst hteq
      exact hown (by simp [hchip])
    · rintro ⟨hvp, hcorn, ⟨t2, hchip, hne⟩, hlock⟩
      have hr : (0 : Int) ≤ r ∧ r < 10 ∧ (0 : Int) ≤ c ∧ c < 10 := by
        simpa [isValidPosition] using hvp
      have hr1 : ((r.toNat : Int)) = r := Int.toNat_of_nonneg hr.1
      have hc1 : ((c.toNat : Int)) = c := Int.toNat_of_nonneg hr.2.2.1
      simp only [List.mem_flatMap, List.mem_filterMap, List.mem_map,
        List.mem_range, List.pure_def, List.bind_eq_flatMap,
        List.mem_singleton]
      refine ⟨r.toNat, by omega, c, ⟨c.toNat, by omega, hc1.symm⟩, ?_⟩
      rw [hr1]
      simp [hcorn, hchip, hlock, Ne.symm hne, hne]
  refine ⟨?_, ?_, htargets, ?_⟩
  · intro s playerId a now reshuffle t cell h
    by_cases hv : (isLegalMove s playerId a).valid = true
    · obtain ⟨p, hf⟩ := isLegalMove_valid_find s playerId a hv
      cases a with
      | draw =>
        simp only [applyMove, hv, Bool.not_true, Bool.false_eq_true, if_false, hf]
        split
        · split
          · simpa [drawEndTurn_lockedCells] using h
          · simpa [drawEndTurn_lockedCells] using h
        · simpa [drawEndTurn_lockedCells] using h
      | replaceDead card =>
        simp only [applyMove, hv, Bool.not_true, Bool.false_eq_true, if_false, hf]
        simpa [drawOneCard_lockedCells, refillDeckIfEmpty_lockedCells,
          cardToDiscard_lockedCells] using h
      | playOneEyed card r c =>
        simp only [applyMove, hv, Bool.not_true, Bool.false_eq_true, if_false, hf]
        simpa [cardToDiscard_lockedCells] using h
      | playNormal card r c =>
        simp only [applyMove, hv, Bool.not_true, Bool.false_eq_true, if_false, hf,
          applyPlaceChip]
        split
        · simpa [cardToDiscard_lockedCells] using h
        · split <;>
          · simp only []
            exact (lockSequenceCells_mem _ _ _ _).mpr (Or.inl h)
      | playTwoEyed card r c =>
        simp only [applyMove, hv, Bool.not_true, Bool.false_eq_true, if_false, hf,
          applyPlaceChip]
        split
        · simpa [cardToDiscard_lockedCells] using h
        · split <;>
          · simp only []
            exact (lockSequenceCells_mem _ _ _ _).mpr (Or.inl h)
    · rw [applyMove_invalid s playerId a now reshuffle (by simpa using hv)]
      exact h
  · intro s now
    unfold handleTurnTimeout
    split <;> rfl
  · intro card b team locked last r c hjack hlock hmem
    have := (htargets card b team locked last r c hjack).mp hmem
    simp [hlock] at this

/-- Witness for C7: the locked chip at (2,2) survives a play-normal move, the
timeout leaves locked cells alone, and the locked chip is not a one-eyed
target while the free opponent chip at (5,5) is characterised. -/
theorem C7_locked_cells_monotone_and_protected_witness :
    ((2, 2) ∈ alGetD lockedChipState.lockedCells 1 [] ∧
      (2, 2) ∈ alGetD (applyMove lockedChipState "p0"
        (GameAction.playNormal "9D" 4 7) 0 id).2.lockedCells 1 []) ∧
    (handleTurnTimeout baseState 3).lockedCells = baseState.lockedCells ∧
    (getJackType "JH" = some JackType.oneEyed ∧
      isCellLocked lockedChipState.lockedCells 2 2 = true ∧
      (2, 2) ∉ getLegalTargets "JH" lockedChipState.boardChips 0
        lockedChipState.lockedCells none) :=
  ⟨⟨by decide,
    C7_locked_cells_monotone_and_protected.1 lockedChipState "p0"
      (GameAction.playNormal "9D" 4 7) 0 id 1 (2, 2) (by decide)⟩,
   C7_locked_cells_monotone_and_protected.2.1 baseState 3,
   ⟨by decide, by decide,
    C7_locked_cells_monotone_and_protected.2.2.2 "JH"
      lockedChipState.boardChips 0 lockedChipState.lockedCells none 2 2
      (by decide) (by decide)⟩⟩

theorem alGetD_alSet_self {A : Type} (m : AList A) (k : Nat) (v d : A) :
    alGetD (alSet m k v) k d = v := by
  simp [alGetD, alGet?_alSet_self]

/-- C6: when a chip-placing move detects at least one new sequence, exactly
one - the first in scan order - is committed: the team's sequence count rises
by exactly one, the locked sets gain exactly that sequence's non-corner
cells, `completedSequences` gains exactly that sequence, and the result
reports a single new sequence, even if several were detected. -/
theorem C6_only_first_detected_sequence_commits (s : GameState)
    (playerId : String) (player : Player) (card : CardCode) (r c : Int)
    (now : Nat) (reshuffle : List CardCode → List CardCode) (a : GameAction)
    (ha : a = .playNormal card r c ∨ a = .playTwoEyed card r c)
    (hf : s.players.find? (fun q => q.id == playerId) = some player)
    (hv : (isLegalMove s playerId a).valid = true)
    (seq0 : SequenceLine) (seqs : List SequenceLine)
    (hseqs : detectNewSequences
        (setChip s.boardChips r c (some player.teamIndex)) r c
        player.teamIndex (alGetD s.lockedCells player.teamIndex [])
        (alGetD s.sequencesCompleted player.teamIndex 0)
        s.config.sequencesToWin s.config.sequenceLength = seq0 :: seqs) :
    (applyMove s playerId a now reshuffle).1.newSequences = some [seq0] ∧
    alGetD (applyMove s playerId a now reshuffle).2.sequencesCompleted
        player.teamIndex 0 =
      alGetD s.sequencesCompleted player.teamIndex 0 + 1 ∧
    (∀ t cell,
      cell ∈ alGetD (applyMove s playerId a now reshuffle).2.lockedCells t [] ↔
        (cell ∈ alGetD s.lockedCells t [] ∨
          (t = seq0.teamIndex ∧ cell ∈ seq0.cells ∧
            isCorner cell.1 cell.2 = false))) ∧
    (applyMove s playerId a now reshuffle).2.completedSequences =
      s.completedSequences ++ [seq0] := by
  have hbody : ∀ res,
      (applyPlaceChip s playerId player card r c now res).1.newSequences = some [seq0] ∧
      alGetD (applyPlaceChip s playerId player card r c now res).2.sequencesCompleted
          player.teamIndex 0 =
        alGetD s.sequencesCompleted player.teamIndex 0 + 1 ∧
      (∀ t cell,
        cell ∈ alGetD (applyPlaceChip s playerId player card r c now res).2.lockedCells t [] ↔
          (cell ∈ alGetD s.lockedCells t [] ∨
            (t = seq0.teamIndex ∧ cell ∈ seq0.cells ∧
              isCorner cell.1 cell.2 = false))) ∧
      (applyPlaceChip s playerId player card r c now res).2.completedSequences =
        s.completedSequences ++ [seq0] := by
    intro res
    unfold applyPlaceChip
    simp only [cardToDiscard]
    rw [hseqs]
    simp only [List.head?_cons]
    split
    · exact ⟨rfl, alGetD_alSet_self _ _ _ _,
        fun t cell => lockSequenceCells_mem _ _ _ _, rfl⟩
    · exact ⟨rfl, alGetD_alSet_self _ _ _ _,
        fun t cell => lockSequenceCells_mem _ _ _ _, rfl⟩
  rcases ha with rfl | rfl <;>
    · simp only [applyMove, hv, Bool.not_true, Bool.false_eq_true, if_false, hf]
      exact hbody _

/-- Witness for C6: completing the horizontal five in row 2 by playing "2D"
at (2,2) commits exactly that sequence. -/
theorem C6_only_first_detected_sequence_commits_witness :
    (isLegalMove sequenceReadyState "p0" (GameAction.playNormal "2D" 2 2)).valid = true ∧
    (applyMove sequenceReadyState "p0" (GameAction.playNormal "2D" 2 2) 7 id).1.newSequences =
      some [{ cells := [(2, 2), (2, 3), (2, 4), (2, 5), (2, 6)], teamIndex := 0 }] ∧
    alGetD (applyMove sequenceReadyState "p0"
        (GameAction.playNormal "2D" 2 2) 7 id).2.sequencesCompleted 0 0 =
      alGetD sequenceReadyState.sequencesCompleted 0 0 + 1 :=
  have hmain := C6_only_first_detected_sequence_commits sequenceReadyState "p0"
    { id := "p0", teamIndex := 0, hand := ["2D"], discardPile := [] }
    "2D" 2 2 7 id (GameAction.playNormal "2D" 2 2) (Or.inl rfl)
    (by decide) (by decide)
    { cells := [(2, 2), (2, 3), (2, 4), (2, 5), (2, 6)], teamIndex := 0 } []
    (by decide)
  ⟨by decide, hmain.1, hmain.2.1⟩

/-! ## Hand and discard bookkeeping (C10) -/

theorem find?_updatePlayer (ps : List Player) (playerId : String)
    (f : Player → Player) (hid : ∀ p, (f p).id = p.id) :
    (updatePlayer ps playerId f).find? (fun q => q.id == playerId) =
      (ps.find? (fun q => q.id == playerId)).map f := by
  induction ps with
  | nil => rfl
  | cons p rest ih =>
    unfold updatePlayer
    by_cases hp : (p.id == playerId) = true
    · have hfp : ((f p).id == playerId) = true := by rw [hid]; exact hp
      rw [if_pos hp]
      simp [List.find?_cons, hfp, hp]
    · have hp2 : (p.id == playerId) = false := by simpa using hp
      have hfp : ((f p).id == playerId) = false := by rw [hid]; exact hp2
      rw [if_neg hp]
      simp [List.find?_cons, hfp, hp2, ih]

theorem legalPlay_valid_mem (s : GameState) (player : Player) (kind : PlayKind)
    (card : CardCode) (r c : Int)
    (h : (legalPlay s player kind card r c).valid = true) :
    card ∈ player.hand := by
  unfold legalPlay at h
  split_ifs at h with h1 h2 h3 h4 h5 h6
  simp_all

/-- The three play branches update the players only by moving the named card
from the acting player's hand to their discard pile. -/
theorem applyMove_play_players (s : GameState) (playerId : String)
    (card : CardCode) (r c : Int) (now : Nat)
    (reshuffle : List CardCode → List CardCode) (p0 : Player)
    (hf : s.players.find? (fun q => q.id == playerId) = some p0) :
    ∀ a, (a = .playNormal card r c ∨ a = .playTwoEyed card r c ∨
        a = .playOneEyed card r c) →
      (isLegalMove s playerId a).valid = true →
      (applyMove s playerId a now reshuffle).2.players =
        updatePlayer s.players playerId (fun p =>
          { p with
              hand := p.hand.erase card,
              discardPile := p.discardPile ++ [card] }) := by
  rintro a (rfl | rfl | rfl) hv <;>
    simp only [applyMove, hv, Bool.not_true, Bool.false_eq_true, if_false, hf,
      applyPlaceChip] <;>
    [skip; skip; rfl] <;>
    · split
      · rfl
      · split <;> rfl

theorem isLegalMove_playNormal_legalPlay (s : GameState) (playerId : String)
    (p0 : Player) (card : CardCode) (r c : Int)
    (hf : s.players.find? (fun q => q.id == playerId) = some p0)
    (hv : (isLegalMove s playerId (.playNormal card r c)).valid = true) :
    (legalPlay s p0 .normal card r c).valid = true := by
  simp only [isLegalMove, hf] at hv
  split_ifs at hv with hcur
  exact hv

theorem isLegalMove_playTwoEyed_legalPlay (s : GameState) (playerId : String)
    (p0 : Player) (card : CardCode) (r c : Int)
    (hf : s.players.find? (fun q => q.id == playerId) = some p0)
    (hv : (isLegalMove s playerId (.playTwoEyed card r c)).valid = true) :
    (legalPlay s p0 .twoEyed card r c).valid = true := by
  simp only [isLegalMove, hf] at hv
  split_ifs at hv with hcur
  exact hv

theorem isLegalMove_playOneEyed_legalPlay (s : GameState) (playerId : String)
    (p0 : Player) (card : CardCode) (r c : Int)
    (hf : s.players.find? (fun q => q.id == playerId) = some p0)
    (hv : (isLegalMove s playerId (.playOneEyed card r c)).valid = true) :
    (legalPlay s p0 .oneEyed card r c).valid = true := by
  simp only [isLegalMove, hf] at hv
  split_ifs at hv with hcur
  exact hv

/-- C10 counterexample: a `replace-dead` against an empty deck pushes the
card onto the discard pile but the immediate reshuffle collects and clears
the piles, and the redraw returns the very same card to the hand: afterwards
the hand count of "9D" is unchanged (still 1) and the discard pile is empty,
so neither "one occurrence removed" nor "one copy appended" holds of the
resulting state.  The reshuffle is instantiated with `id`; the collected pile
is the singleton ["9D"], on which every permutation agrees with `id`. -/
theorem C10_counterexample_reshuffle_consumes_discard :
    (applyMove emptyDeckDeadState "p0" (GameAction.replaceDead "9D") 50 id).1.success = true ∧
    ((emptyDeckDeadState.players.find? (fun q => q.id == "p0")).map
      (fun p => (p.hand.count "9D", p.discardPile))) = some (1, []) ∧
    ((applyMove emptyDeckDeadState "p0" (GameAction.replaceDead "9D") 50 id).2.players.find?
        (fun q => q.id == "p0")).map (fun p => (p.hand.count "9D", p.discardPile)) =
      some (1, []) := by
  decide

/-- C10 (amended): a successful play action moves exactly one occurrence of
the named card from the acting player's hand (even with duplicates) to the
top of their discard pile; a successful replace-dead does the same transfer
but then draws a replacement - which may be the duplicate of the same code -
so its post-state guarantee holds when the deck is nonempty, with the drawn
deck head appended to the hand. -/
theorem C10_hand_discard_transfer (s : GameState) (playerId : String)
    (p0 : Player) (card : CardCode) (now : Nat)
    (reshuffle : List CardCode → List CardCode)
    (hf : s.players.find? (fun q => q.id == playerId) = some p0) :
    (∀ a r c,
      (a = GameAction.playNormal card r c ∨ a = GameAction.playTwoEyed card r c ∨
        a = GameAction.playOneEyed card r c) →
      (isLegalMove s playerId a).valid = true →
      ((applyMove s playerId a now reshuffle).2.players.find?
          (fun q => q.id == playerId) =
        some { p0 with
                hand := p0.hand.erase card,
                discardPile := p0.discardPile ++ [card] } ∧
       (p0.hand.erase card).count card + 1 = p0.hand.count card)) ∧
    (∀ d tl, s.deck = d :: tl →
      (isLegalMove s playerId (.replaceDead card)).valid = true →
      (applyMove s playerId (.replaceDead card) now reshuffle).2.players.find?
          (fun q => q.id == playerId) =
        some { p0 with
                hand := p0.hand.erase card ++ [d],
                discardPile := p0.discardPile ++ [card] }) := by
  constructor
  · intro a r c ha hv
    have hmem : card ∈ p0.hand := by
      rcases ha with rfl | rfl | rfl
      · exact legalPlay_valid_mem _ _ _ _ _ _
          (isLegalMove_playNormal_legalPlay s playerId p0 card r c hf hv)
      · exact legalPlay_valid_mem _ _ _ _ _ _
          (isLegalMove_playTwoEyed_legalPlay s playerId p0 card r c hf hv)
      · exact legalPlay_valid_mem _ _ _ _ _ _
          (isLegalMove_playOneEyed_legalPlay s playerId p0 card r c hf hv)
    have hps := applyMove_play_players s playerId card r c now reshuffle p0 hf a ha hv
    constructor
    · rw [hps, find?_updatePlayer s.players playerId
        (fun p => { p with
                      hand := p.hand.erase card,
                      discardPile := p.discardPile ++ [card] })
        (fun p => rfl), hf]
      rfl
    · have h1 : 0 < p0.hand.count card := List.count_pos_iff.mpr hmem
      rw [List.count_erase_self]
      omega
  · intro d tl hdeck hv
    simp only [applyMove, hv, Bool.not_true, Bool.false_eq_true, if_false, hf]
    have hrefill :
        refillDeckIfEmpty (cardToDiscard s playerId card) reshuffle =
          cardToDiscard s playerId card := by
      unfold refillDeckIfEmpty
      simp [cardToDiscard, hdeck]
    rw [hrefill]
    unfold drawOneCard
    simp only [cardToDiscard, hdeck, List.head?_cons]
    rw [find?_updatePlayer
        (updatePlayer s.players playerId (fun p =>
          { p with
              hand := p.hand.erase card,
              discardPile := p.discardPile ++ [card] }))
        playerId (fun p => { p with hand := p.hand ++ [d] }) (fun p => rfl),
      find?_updatePlayer s.players playerId
        (fun p => { p with
                      hand := p.hand.erase card,
                      discardPile := p.discardPile ++ [card] })
        (fun p => rfl), hf]
    rfl

/-- Witness for C10 (amended): playing "9D" moves it from hand to discard;
replacing the dead "9D" with a nonempty deck appends the drawn "3C". -/
theorem C10_hand_discard_transfer_witness :
    (isLegalMove baseState "p0" (GameAction.playNormal "9D" 4 7)).valid = true ∧
    ((applyMove baseState "p0" (GameAction.playNormal "9D" 4 7) 0 id).2.players.find?
        (fun q => q.id == "p0") =
      some { testPlayer0 with
              hand := testPlayer0.hand.erase "9D",
              discardPile := testPlayer0.discardPile ++ ["9D"] } ∧
     (testPlayer0.hand.erase "9D").count "9D" + 1 = testPlayer0.hand.count "9D") ∧
    pendingDrawDeadState.deck = "3C" :: ["4C"] ∧
    (isLegalMove pendingDrawDeadState "p0" (GameAction.replaceDead "9D")).valid = true ∧
    (applyMove pendingDrawDeadState "p0" (GameAction.replaceDead "9D") 0 id).2.players.find?
        (fun q => q.id == "p0") =
      some { testPlayer0 with
              hand := testPlayer0.hand.erase "9D" ++ ["3C"],
              discardPile := testPlayer0.discardPile ++ ["9D"] } :=
  ⟨by decide,
   (C10_hand_discard_transfer baseState "p0" testPlayer0 "9D" 0 id (by decide)).1
     (GameAction.playNormal "9D" 4 7) 4 7 (Or.inl rfl) (by decide),
   rfl,
   by decide,
   (C10_hand_discard_transfer pendingDrawDeadState "p0" testPlayer0 "9D" 0 id
     (by decide)).2 "3C" ["4C"] rfl (by decide)⟩

/-! ## Geometry of scanned windows (C5) -/

theorem collectLine_succ (b : BoardChips) (team : Nat) (dRow dCol : Int)
    (n : Nat) (row col : Int) :
    collectLine b team dRow dCol (n + 1) (row, col) =
      if isValidPosition row col && isCellOccupiedByTeam b row col team then
        (row, col) :: collectLine b team dRow dCol n (row + dRow, col + dCol)
      else [] := rfl

/-- The forward collection loop produces consecutive cells along its
direction: the `i`-th collected cell is the start plus `i` steps. -/
theorem collectLine_get? (b : BoardChips) (team : Nat) (dRow dCol : Int) :
    ∀ (fuel : Nat) (p : Int × Int) (i : Nat),
      i < (collectLine b team dRow dCol fuel p).length →
      (collectLine b team dRow dCol fuel p).get? i =
        some (p.1 + (i : Int) * dRow, p.2 + (i : Int) * dCol) := by
  intro fuel
  induction fuel with
  | zero => intro p i h; simp [collectLine] at h
  | succ n ih =>
    intro p i h
    obtain ⟨row, col⟩ := p
    rw [collectLine_succ] at h ⊢
    split_ifs at h ⊢ with hcond
    · cases i with
      | zero => simp
      | succ i2 =>
        simp only [List.length_cons, Nat.add_lt_add_iff_right] at h
        simp only [List.get?_cons_succ]
        rw [ih (row + dRow, col + dCol) i2 h]
        simp only [Option.some.injEq, Prod.mk.injEq]
        constructor <;> (dsimp only; push_cast; ring)
    · simp at h

/-- The four wild corners, coordinate-wise. -/
theorem isCorner_iff (r c : Int) :
    isCorner r c = true ↔
      ((r = 0 ∧ c = 0) ∨ (r = 0 ∧ c = 9) ∨ (r = 9 ∧ c = 0) ∨ (r = 9 ∧ c = 9)) := by
  unfold isCorner CORNER_POSITIONS
  simp only [List.any_cons, List.any_nil, Bool.or_false, Bool.or_eq_true,
    Bool.and_eq_true, beq_iff_eq]
  constructor
  · rintro (⟨h1, h2⟩ | ⟨h1, h2⟩ | ⟨h1, h2⟩ | ⟨h1, h2⟩) <;> omega
  · rintro (⟨h1, h2⟩ | ⟨h1, h2⟩ | ⟨h1, h2⟩ | ⟨h1, h2⟩) <;>
      subst h1 <;> subst h2 <;> simp

/-- A list in which no two positions both satisfy `P` has `countP P ≤ 1`. -/
theorem countP_le_one_of_pairwise {α : Type} (P : α → Bool) (l : List α)
    (h : ∀ i j, i < j → ∀ x y, l.get? i = some x → l.get? j = some y →
      ¬(P x = true ∧ P y = true)) :
    l.countP P ≤ 1 := by
  induction l with
  | nil => simp
  | cons a t ih =>
    rw [List.countP_cons]
    by_cases hp : P a = true
    · have ht : t.countP P = 0 := by
        rw [List.countP_eq_zero]
        intro x hx hPx
        obtain ⟨j, hj⟩ := List.mem_iff_get?.mp hx
        exact h 0 (j + 1) (by omega) a x rfl (by simpa using hj) ⟨hp, hPx⟩
      simp [ht, hp]
    · have ht : t.countP P ≤ 1 := by
        refine ih (fun i j hij x y hx hy => ?_)
        exact h (i + 1) (j + 1) (by omega) x y (by simpa using hx) (by simpa using hy)
      have hpf : P a = false := by simpa using hp
      simp [hpf]
      omega

/-- Split a `countP` along a second predicate. -/
theorem countP_split {α : Type} (l : List α) (p q : α → Bool) :
    l.countP (fun a => p a && q a) + l.countP (fun a => p a && !q a) =
      l.countP p := by
  induction l with
  | nil => simp
  | cons a t ih =>
    simp only [List.countP_cons]
    cases hp : p a <;> cases hq : q a <;> simp [hp, hq] <;> omega

/-- Every window emitted by `getSequencesThroughCell` is a `len`-cell slice
of the collected run of some orientation. -/
theorem mem_getSequencesThroughCell (b : BoardChips) (tr tc : Int)
    (team len : Nat) (seq : SequenceLine)
    (h : seq ∈ getSequencesThroughCell b tr tc team len) :
    ∃ d, d ∈ DIRECTIONS ∧ ∃ st : Nat,
      st + len ≤
        (collectLine b team d.1 d.2 20
          (walkBack b team d.1 d.2 (len - 1) (tr, tc))).length ∧
      seq.cells =
        ((collectLine b team d.1 d.2 20
          (walkBack b team d.1 d.2 (len - 1) (tr, tc))).drop st).take len ∧
      seq.teamIndex = team := by
  unfold getSequencesThroughCell at h
  simp only [List.mem_flatMap] at h
  obtain ⟨d, hd, h⟩ := h
  refine ⟨d, hd, ?_⟩
  split at h
  · next hlen =>
    simp only [List.mem_filterMap, List.mem_range] at h
    obtain ⟨st, hst, heq⟩ := h
    split_ifs at heq with hany
    have hseq : seq.cells =
        ((collectLine b team d.1 d.2 20
          (walkBack b team d.1 d.2 (len - 1) (tr, tc))).drop st).take len ∧
        seq.teamIndex = team := by
      obtain rfl := Option.some.inj heq
      exact ⟨rfl, rfl⟩
    exact ⟨st, by omega, hseq⟩
  · next hlen => simp at h

/-- A window of length at most 9 cut from an arithmetic progression along one
of the four directions contains at most one corner cell: distinct corners
differ by 9 in some coordinate, while `k` steps along a direction move each
coordinate by at most `k ≤ 8`. -/
theorem progression_window_corner_count (line : List (Int × Int))
    (start d : Int × Int) (hd : d ∈ DIRECTIONS)
    (hprog : ∀ i, i < line.length →
      line.get? i = some (start.1 + (i : Int) * d.1, start.2 + (i : Int) * d.2))
    (len st : Nat) (hlen9 : len ≤ 9) (hbound : st + len ≤ line.length) :
    (((line.drop st).take len).countP (fun p => isCorner p.1 p.2)) ≤ 1 := by
  refine countP_le_one_of_pairwise _ _ (fun i j hij x y hx hy => ?_)
  rintro ⟨hcx, hcy⟩
  have hjlen : j < len := by
    have h1 : j < ((line.drop st).take len).length := by
      rcases List.get?_eq_some.mp hy with ⟨hh, _⟩
      exact hh
    have h2 : ((line.drop st).take len).length ≤ len := by
      simp [List.length_take]
    omega
  have hilen : i < len := by omega
  have hxg : line.get? (st + i) = some x := by
    rw [List.get?_eq_getElem?] at hx ⊢
    rw [List.getElem?_take_of_lt hilen, List.getElem?_drop] at hx
    exact hx
  have hyg : line.get? (st + j) = some y := by
    rw [List.get?_eq_getElem?] at hy ⊢
    rw [List.getElem?_take_of_lt hjlen, List.getElem?_drop] at hy
    exact hy
  have hxv := hprog (st + i) (by omega)
  have hyv := hprog (st + j) (by omega)
  rw [hxg] at hxv
  rw [hyg] at hyv
  obtain ⟨hx1, hx2⟩ : x.1 = start.1 + ((st + i : Nat) : Int) * d.1 ∧
      x.2 = start.2 + ((st + i : Nat) : Int) * d.2 := by
    simpa [Prod.ext_iff] using hxv
  obtain ⟨hy1, hy2⟩ : y.1 = start.1 + ((st + j : Nat) : Int) * d.1 ∧
      y.2 = start.2 + ((st + j : Nat) : Int) * d.2 := by
    simpa [Prod.ext_iff] using hyv
  rw [isCorner_iff] at hcx hcy
  have hdd : d = (0, 1) ∨ d = (1, 0) ∨ d = (1, 1) ∨ d = (1, -1) := by
    simpa [DIRECTIONS] using hd
  rcases hdd with rfl | rfl | rfl | rfl <;>
    (simp only [] at hx1 hx2 hy1 hy2;
     rcases hcx with ⟨e1, e2⟩ | ⟨e1, e2⟩ | ⟨e1, e2⟩ | ⟨e1, e2⟩ <;>
       rcases hcy with ⟨f1, f2⟩ | ⟨f1, f2⟩ | ⟨f1, f2⟩ | ⟨f1, f2⟩ <;>
       omega)

/-! ## The dedup pass (C5) -/

theorem dedup_fold_subset (l : List SequenceLine) :
    ∀ (acc : List SequenceLine × List (List (Int × Int))),
      ∀ x ∈ (l.foldl dedupStep acc).1, x ∈ acc.1 ∨ x ∈ l := by
  induction l with
  | nil => intro acc x hx; exact Or.inl hx
  | cons a t ih =>
    intro acc x hx
    rw [List.foldl_cons] at hx
    rcases ih (dedupStep acc a) x hx with hacc | ht
    · unfold dedupStep at hacc
      split_ifs at hacc with hc
      · exact Or.inl hacc
      · simp only [List.mem_append, List.mem_singleton] at hacc
        rcases hacc with h | rfl
        · exact Or.inl h
        · exact Or.inr (List.mem_cons_self _ _)
    · exact Or.inr (List.mem_cons_of_mem _ ht)

theorem dedup_fold_mono (l : List SequenceLine) :
    ∀ (acc : List SequenceLine × List (List (Int × Int))),
      (∀ x ∈ acc.1, x ∈ (l.foldl dedupStep acc).1) ∧
      (∀ k ∈ acc.2, k ∈ (l.foldl dedupStep acc).2) := by
  induction l with
  | nil => intro acc; exact ⟨fun x hx => hx, fun k hk => hk⟩
  | cons a t ih =>
    intro acc
    rw [List.foldl_cons]
    refine ⟨fun x hx => ?_, fun k hk => ?_⟩
    · refine (ih (dedupStep acc a)).1 x ?_
      unfold dedupStep
      split_ifs
      · exact hx
      · exact List.mem_append_left _ hx
    · refine (ih (dedupStep acc a)).2 k ?_
      unfold dedupStep
      split_ifs
      · exact hk
      · exact List.mem_append_left _ hk

theorem dedup_fold_key_mem (l : List SequenceLine) :
    ∀ (acc : List SequenceLine × List (List (Int × Int))),
      ∀ x ∈ l, sortCells x.cells ∈ (l.foldl dedupStep acc).2 := by
  induction l with
  | nil => intro acc x hx; simp at hx
  | cons a t ih =>
    intro acc x hx
    rw [List.foldl_cons]
    rcases List.mem_cons.mp hx with rfl | hxt
    · refine (dedup_fold_mono t (dedupStep acc x)).2 _ ?_
      unfold dedupStep
      split_ifs with hc
      · exact List.mem_of_elem_eq_true hc
      · exact List.mem_append_right _ (List.mem_singleton_self _)
    · exact ih (dedupStep acc a) x hxt

theorem dedup_fold_represented (l : List SequenceLine) :
    ∀ (acc : List SequenceLine × List (List (Int × Int))),
      (∀ k ∈ acc.2, ∃ y ∈ acc.1, sortCells y.cells = k) →
      ∀ k ∈ (l.foldl dedupStep acc).2,
        ∃ y ∈ (l.foldl dedupStep acc).1, sortCells y.cells = k := by
  induction l with
  | nil => intro acc hinv k hk; exact hinv k hk
  | cons a t ih =>
    intro acc hinv k hk
    rw [List.foldl_cons] at hk ⊢
    refine ih (dedupStep acc a) ?_ k hk
    intro k2 hk2
    unfold dedupStep at hk2 ⊢
    split_ifs at hk2 ⊢ with hc
    · exact hinv k2 hk2
    · simp only [List.mem_append, List.mem_singleton] at hk2
      rcases hk2 with h | rfl
      · obtain ⟨y, hy, hyk⟩ := hinv k2 h
        exact ⟨y, List.mem_append_left _ hy, hyk⟩
      · exact ⟨a, List.mem_append_right _ (List.mem_singleton_self _), rfl⟩

/-- Everything in the dedup output came from the input. -/
theorem dedupSequences_subset (l : List SequenceLine) :
    ∀ x ∈ dedupSequences l, x ∈ l := by
  intro x hx
  rcases dedup_fold_subset l ([], []) x hx with h | h
  · simp at h
  · exact h

/-- Every input sequence has a representative with the same sorted-cell key
in the dedup output. -/
theorem dedupSequences_covers (l : List SequenceLine) :
    ∀ x ∈ l, ∃ y ∈ dedupSequences l, sortCells y.cells = sortCells x.cells := by
  intro x hx
  have hk := dedup_fold_key_mem l ([], []) x hx
  exact dedup_fold_represented l ([], []) (by simp) _ hk

/-- C5: once a team has a prior completed sequence, a candidate window
sharing two or more non-corner cells with the team's locked cells is
rejected by `detectNewSequences`, while a window sharing exactly one
non-corner cell is accepted (up to deduplication by cell set); corner cells
never count toward the overlap (`nonCornerOverlap` counts only non-corner
cells).  `sequenceLength` is 4 or 5 in every configuration, within the 3..9
range assumed here. -/
theorem C5_overlap_rule (b : BoardChips) (targetRow targetCol : Int)
    (team : Nat) (locked : CellSet) (completed toWin len : Nat)
    (hlen3 : 3 ≤ len) (hlen9 : len ≤ 9) (hcompleted : 0 < completed)
    (seq : SequenceLine)
    (hseq : seq ∈ getSequencesThroughCell b targetRow targetCol team len) :
    (2 ≤ nonCornerOverlap seq.cells locked →
      seq ∉ detectNewSequences b targetRow targetCol team locked completed
        toWin len) ∧
    (nonCornerOverlap seq.cells locked = 1 →
      ∃ seq2 ∈ detectNewSequences b targetRow targetCol team locked completed
        toWin len, sortCells seq2.cells = sortCells seq.cells) := by
  constructor
  · intro hov hmem
    have hsub := dedupSequences_subset _ _ hmem
    have hfilt := (List.mem_filter.mp hsub).2
    unfold sequenceFilter at hfilt
    split_ifs at hfilt with h1 h2
    have hval : isValidSequenceOverlap seq locked = true := by
      cases hb : isValidSequenceOverlap seq locked
      · exact absurd (by simp [hb, hcompleted]) h2
      · rfl
    have hle : nonCornerOverlap seq.cells locked ≤ 1 := by
      simpa [isValidSequenceOverlap] using hval
    omega
  · intro hov
    obtain ⟨d, hd, st, hbound, hcells, hteam⟩ :=
      mem_getSequencesThroughCell b targetRow targetCol team len seq hseq
    have hcc : seq.cells.countP (fun p => isCorner p.1 p.2) ≤ 1 := by
      rw [hcells]
      exact progression_window_corner_count _ _ _ hd
        (fun i hi => collectLine_get? b team d.1 d.2 20 _ i hi) len st hlen9
        hbound
    have hlc : seq.cells.length = len := by
      rw [hcells]
      simp only [List.length_take, List.length_drop]
      omega
    have hsplitc := countP_split seq.cells (fun _ => true)
      (fun p => isCorner p.1 p.2)
    simp only [Bool.true_and, List.countP_true] at hsplitc
    have hnc : 2 ≤ seq.cells.countP (fun p => !isCorner p.1 p.2) := by omega
    have hsplit2 := countP_split seq.cells (fun p => !isCorner p.1 p.2)
      (fun p => locked.contains p)
    have hov2 : seq.cells.countP
        (fun p => !isCorner p.1 p.2 && locked.contains p) = 1 := hov
    have hexists : 0 < seq.cells.countP
        (fun p => !isCorner p.1 p.2 && !locked.contains p) := by omega
    obtain ⟨cell, hcellmem, hcellp⟩ := List.countP_pos_iff.mp hexists
    have hc1 : isCorner cell.1 cell.2 = false := by
      simp only [Bool.and_eq_true, Bool.not_eq_true'] at hcellp
      exact hcellp.1
    have hnm : cell ∉ locked := by
      simp only [Bool.and_eq_true, Bool.not_eq_true'] at hcellp
      simpa using hcellp.2
    have hall : (seq.cells.all
        (fun p => locked.contains p || isCorner p.1 p.2)) = false := by
      cases hb : seq.cells.all (fun p => locked.contains p || isCorner p.1 p.2)
      · rfl
      · have hthis := List.all_eq_true.mp hb cell hcellmem
        simp [hc1, hnm] at hthis
    have hfilt : sequenceFilter locked completed seq = true := by
      unfold sequenceFilter
      rw [hall]
      simp [isValidSequenceOverlap, hov]
    have hfm : seq ∈ (getSequencesThroughCell b targetRow targetCol team
        len).filter (sequenceFilter locked completed) :=
      List.mem_filter.mpr ⟨hseq, hfilt⟩
    exact dedupSequences_covers _ seq hfm

/-- Witness for C5: with the row-2 sequence locked, the horizontal window
through (2,7) overlaps four locked cells and is rejected, while the vertical
window through (5,4) overlaps exactly one and is accepted. -/
theorem C5_overlap_rule_witness :
    rejectSeq ∈ getSequencesThroughCell overlapRejectBoard 2 7 0 5 ∧
    2 ≤ nonCornerOverlap rejectSeq.cells overlapLockedSet ∧
    rejectSeq ∉ detectNewSequences overlapRejectBoard 2 7 0 overlapLockedSet
      1 2 5 ∧
    acceptSeq ∈ getSequencesThroughCell overlapAcceptBoard 5 4 0 5 ∧
    nonCornerOverlap acceptSeq.cells overlapLockedSet = 1 ∧
    (∃ seq2 ∈ detectNewSequences overlapAcceptBoard 5 4 0 overlapLockedSet
      1 2 5, sortCells seq2.cells = sortCells acceptSeq.cells) :=
  ⟨by decide, by decide,
   (C5_overlap_rule overlapRejectBoard 2 7 0 overlapLockedSet 1 2 5
     (by omega) (by omega) (by omega) rejectSeq (by decide)).1 (by decide),
   by decide, by decide,
   (C5_overlap_rule overlapAcceptBoard 5 4 0 overlapLockedSet 1 2 5
     (by omega) (by omega) (by omega) acceptSeq (by decide)).2 (by decide)⟩

/-! ## The stalemate tie-break order (C1) -/

theorem ltInfinity_irrefl (a : Option Nat) : ltInfinity a a = false := by
  cases a <;> simp [ltInfinity]

theorem ltInfinity_not_not (a b c : Option Nat) (h1 : ltInfinity c b = false)
    (h2 : ltInfinity b a = false) : ltInfinity c a = false := by
  cases a <;> cases b <;> cases c <;> simp_all [ltInfinity] <;> omega

theorem ltInfinity_le_lt (a r b : Option Nat) (h1 : ltInfinity a r = false)
    (h2 : ltInfinity a b = true) : ltInfinity b r = false := by
  cases a <;> cases b <;> cases r <;> simp_all [ltInfinity] <;> omega

/-- Behaviour of the tie-break scan: the result never compares later than
the accumulator, it is the accumulator or comes from the scanned list, and
no scanned team compares strictly earlier than it. -/
theorem tieBreakFold_spec (ts : AList (List Nat)) (maxC : Nat) :
    ∀ (l : List (Nat × Nat)) (acc : Option Nat × Nat),
      ltInfinity acc.1 (tieBreakFold ts maxC l acc).1 = false ∧
      (tieBreakFold ts maxC l acc = acc ∨
        ∃ x ∈ l, (tieBreakFold ts maxC l acc).2 = x.1 ∧
          (tieBreakFold ts maxC l acc).1 =
            jsOrInfinity ((alGetD ts x.1 []).get? (maxC - 1))) ∧
      (∀ x ∈ l,
        ltInfinity (jsOrInfinity ((alGetD ts x.1 []).get? (maxC - 1)))
          (tieBreakFold ts maxC l acc).1 = false) := by
  intro l
  induction l with
  | nil =>
    intro acc
    exact ⟨ltInfinity_irrefl _, Or.inl rfl, by simp⟩
  | cons t rest ih =>
    intro acc
    have hcons : tieBreakFold ts maxC (t :: rest) acc =
        tieBreakFold ts maxC rest
          (if ltInfinity (jsOrInfinity ((alGetD ts t.1 []).get? (maxC - 1)))
              acc.1 then
            (jsOrInfinity ((alGetD ts t.1 []).get? (maxC - 1)), t.1)
          else acc) := rfl
    rw [hcons]
    by_cases hlt : ltInfinity
        (jsOrInfinity ((alGetD ts t.1 []).get? (maxC - 1))) acc.1 = true
    · rw [if_pos hlt]
      obtain ⟨ihA, ihB, ihC⟩ :=
        ih (jsOrInfinity ((alGetD ts t.1 []).get? (maxC - 1)), t.1)
      refine ⟨ltInfinity_le_lt _ _ _ ihA hlt, ?_, ?_⟩
      · rcases ihB with heq | ⟨x, hx, hx2, hx1⟩
        · exact Or.inr ⟨t, List.mem_cons_self _ _, by rw [heq], by rw [heq]⟩
        · exact Or.inr ⟨x, List.mem_cons_of_mem _ hx, hx2, hx1⟩
      · intro x hx
        rcases List.mem_cons.mp hx with rfl | hx2
        · exact ihA
        · exact ihC x hx2
    · rw [if_neg hlt]
      obtain ⟨ihA, ihB, ihC⟩ := ih acc
      refine ⟨ihA, ?_, ?_⟩
      · rcases ihB with heq | ⟨x, hx, hx2, hx1⟩
        · exact Or.inl heq
        · exact Or.inr ⟨x, List.mem_cons_of_mem _ hx, hx2, hx1⟩
      · intro x hx
        rcases List.mem_cons.mp hx with rfl | hx2
        · exact ltInfinity_not_not _ _ _ (by simpa using hlt) ihA
        · exact ihC x hx2

theorem foldl_max_le (l : List Nat) :
    ∀ a : Nat, a ≤ l.foldl max a ∧ ∀ x ∈ l, x ≤ l.foldl max a := by
  induction l with
  | nil => intro a; simp
  | cons b t ih =>
    intro a
    rw [List.foldl_cons]
    refine ⟨le_trans (le_max_left a b) (ih (max a b)).1, fun x hx => ?_⟩
    rcases List.mem_cons.mp hx with rfl | hx2
    · exact le_trans (le_max_right a x) (ih (max a x)).1
    · exact (ih (max a b)).2 x hx2

theorem foldl_max_mem (l : List Nat) :
    ∀ a : Nat, l.foldl max a = a ∨ l.foldl max a ∈ l := by
  induction l with
  | nil => intro a; simp
  | cons b t ih =>
    intro a
    rw [List.foldl_cons]
    rcases ih (max a b) with h | h
    · rcases max_choice a b with hm | hm
      · exact Or.inl (by rw [h, hm])
      · exact Or.inr (by rw [h, hm]; exact List.mem_cons_self _ _)
    · exact Or.inr (List.mem_cons_of_mem _ h)

theorem mem_teamsWithMaxOf (s : GameState) (t c : Nat) :
    (t, c) ∈ teamsWithMaxOf s ↔
      t < s.config.teamCount ∧ c = teamSequenceCount s t ∧
        c = maxSequenceCount s := by
  unfold teamsWithMaxOf
  simp only [List.mem_filter, List.mem_map, List.mem_range, Prod.mk.injEq,
    beq_iff_eq]
  constructor
  · rintro ⟨⟨i, hi, rfl, rfl⟩, h2⟩
    exact ⟨hi, rfl, h2⟩
  · rintro ⟨hi, rfl, h2⟩
    exact ⟨⟨t, hi, rfl, rfl⟩, h2⟩

theorem teamsWithMaxOf_nonempty (s : GameState)
    (h : maxSequenceCount s ≠ 0) :
    ∃ x, x ∈ teamsWithMaxOf s ∧ x.2 = maxSequenceCount s := by
  rcases foldl_max_mem (sequenceCountsOf s) 0 with h0 | hmem
  · exact absurd h0 h
  · unfold sequenceCountsOf at hmem
    rw [List.mem_map] at hmem
    obtain ⟨i, hi, hci⟩ := hmem
    rw [List.mem_range] at hi
    refine ⟨(i, maxSequenceCount s), ?_, rfl⟩
    exact (mem_teamsWithMaxOf s i (maxSequenceCount s)).mpr ⟨hi, hci.symm, rfl⟩

/-- The winner selected on stalemate: team 0 when every count is zero,
otherwise a team with the maximal count such that no tied team's adjusted
timestamp (`timestamps[max-1] || Infinity`) compares strictly earlier. -/
theorem stalemateWinnerResult_spec (s : GameState) :
    (stalemateWinnerResult s).isStalemate = true ∧
    ∃ w, (stalemateWinnerResult s).winnerTeamIndex = some w ∧
      (maxSequenceCount s = 0 → w = 0) ∧
      (0 < maxSequenceCount s →
        w < s.config.teamCount ∧
        teamSequenceCount s w = maxSequenceCount s ∧
        ∀ t, t < s.config.teamCount →
          teamSequenceCount s t = maxSequenceCount s →
          ltInfinity (adjustedReachedCountAt s t (maxSequenceCount s))
            (adjustedReachedCountAt s w (maxSequenceCount s)) = false) := by
  unfold stalemateWinnerResult
  by_cases h0 : maxSequenceCount s = 0
  · rw [if_pos (by simpa using h0)]
    exact ⟨rfl, 0, rfl, fun _ => rfl, fun hpos => absurd h0 (by omega)⟩
  · rw [if_neg (by simpa using h0)]
    obtain ⟨x0, hx0, hx0max⟩ := teamsWithMaxOf_nonempty s h0
    by_cases h1 : (teamsWithMaxOf s).length = 1
    · rw [if_pos (by simpa using h1)]
      obtain ⟨y, hy⟩ := List.length_eq_one.mp h1
      have hx0y : x0 = y := by
        rw [hy] at hx0
        simpa using hx0
      subst hx0y
      refine ⟨rfl, x0.1, by rw [hy]; rfl, fun hz => absurd hz h0, fun hpos => ?_⟩
      obtain ⟨hlt, hcnt, hmax⟩ := (mem_teamsWithMaxOf s x0.1 x0.2).mp hx0
      refine ⟨hlt, by rw [← hcnt, hmax], fun t ht htc => ?_⟩
      have htmem : (t, teamSequenceCount s t) ∈ teamsWithMaxOf s :=
        (mem_teamsWithMaxOf s t (teamSequenceCount s t)).mpr ⟨ht, rfl, htc⟩
      rw [hy] at htmem
      have : t = x0.1 := by
        have := List.mem_singleton.mp htmem
        exact congrArg Prod.fst this
      rw [this]
      exact ltInfinity_irrefl _
    · rw [if_neg (by simpa using h1)]
      obtain ⟨A, B, C⟩ := tieBreakFold_spec s.sequenceTimestamps
        (maxSequenceCount s) (teamsWithMaxOf s)
        (none, ((teamsWithMaxOf s).head?.map (fun t => t.1)).getD 0)
      refine ⟨rfl, _, rfl, fun hz => absurd hz h0, fun hpos => ?_⟩
      have htied : ∀ t, t < s.config.teamCount →
          teamSequenceCount s t = maxSequenceCount s →
          (t, teamSequenceCount s t) ∈ teamsWithMaxOf s :=
        fun t ht htc =>
          (mem_teamsWithMaxOf s t (teamSequenceCount s t)).mpr ⟨ht, rfl, htc⟩
      rcases B with heq | ⟨x, hx, hx2, hx1⟩
      · -- the scan never improved on the initial Infinity: every tied
        -- team's adjusted timestamp is Infinity and the first tied team wins
        have hfirst : ((teamsWithMaxOf s).head?.map (fun t => t.1)).getD 0 =
            x0.1 ∨ ∃ z, z ∈ teamsWithMaxOf s ∧
              ((teamsWithMaxOf s).head?.map (fun t => t.1)).getD 0 = z.1 := by
          cases hh : (teamsWithMaxOf s).head? with
          | none =>
            rw [List.head?_eq_none_iff] at hh
            rw [hh] at hx0
            simp at hx0
          | some z =>
            exact Or.inr ⟨z, List.mem_of_mem_head? hh, by simp [hh]⟩
        have hwmem : ∃ z ∈ teamsWithMaxOf s,
            (tieBreakFold s.sequenceTimestamps (maxSequenceCount s)
              (teamsWithMaxOf s)
              (none, ((teamsWithMaxOf s).head?.map (fun t => t.1)).getD 0)).2 =
              z.1 := by
          rcases hfirst with hcase | ⟨z, hz, hzeq⟩
          · exact ⟨x0, hx0, by rw [heq]; exact hcase⟩
          · exact ⟨z, hz, by rw [heq]; exact hzeq⟩
        obtain ⟨z, hz, hzeq⟩ := hwmem
        obtain ⟨hzlt, hzcnt, hzmax⟩ := (mem_teamsWithMaxOf s z.1 z.2).mp hz
        refine ⟨by rw [hzeq]; exact hzlt, by rw [hzeq, ← hzcnt, hzmax], ?_⟩
        intro t ht htc
        have hCt := C (t, teamSequenceCount s t) (htied t ht htc)
        rw [heq] at hCt
        -- hCt : ltInfinity (adjusted t) none = false, so adjusted t = none
        cases hadj : jsOrInfinity
            ((alGetD s.sequenceTimestamps t []).get? (maxSequenceCount s - 1)) with
        | none =>
          have hadjeq : adjustedReachedCountAt s t (maxSequenceCount s) = none := by
            simpa [adjustedReachedCountAt, reachedCountAt] using hadj
          rw [hadjeq]
          rfl
        | some v =>
          rw [hadj] at hCt
          simp [ltInfinity] at hCt
      · obtain ⟨hxlt, hxcnt, hxmax⟩ := (mem_teamsWithMaxOf s x.1 x.2).mp hx
        refine ⟨by rw [hx2]; exact hxlt, by rw [hx2, ← hxcnt, hxmax], ?_⟩
        intro t ht htc
        have hCt := C (t, teamSequenceCount s t) (htied t ht htc)
        have hwadj : adjustedReachedCountAt s
            (tieBreakFold s.sequenceTimestamps (maxSequenceCount s)
              (teamsWithMaxOf s)
              (none, ((teamsWithMaxOf s).head?.map (fun t => t.1)).getD 0)).2
            (maxSequenceCount s) =
            (tieBreakFold s.sequenceTimestamps (maxSequenceCount s)
              (teamsWithMaxOf s)
              (none, ((teamsWithMaxOf s).head?.map (fun t => t.1)).getD 0)).1 := by
          rw [hx2, hx1]
          rfl
        rw [hwadj]
        exact hCt

/-- `checkStalemate` reports a stalemate exactly when no team below the win
threshold can still complete a valid sequence. -/
theorem checkStalemate_isStalemate_iff (s : GameState) :
    (checkStalemate s).isStalemate = true ↔
      ∀ t, t < s.config.teamCount →
        teamSequenceCount s t < s.config.sequencesToWin →
        canTeamCompleteSequence s.boardChips t (alGetD s.lockedCells t [])
          (teamSequenceCount s t) s.config.sequenceLength = false := by
  unfold checkStalemate
  by_cases h : canAnyTeamScore s = true
  · rw [if_pos h]
    constructor
    · intro hfalse
      exact absurd hfalse (by simp)
    · intro hall
      exfalso
      unfold canAnyTeamScore at h
      obtain ⟨t, ht, hts⟩ := by simpa using List.any_eq_true.mp h
      unfold teamCanScore at hts
      split_ifs at hts with hw
      exact absurd hts (by simp [hall t ht (by omega)])
  · rw [if_neg h]
    have hst := (stalemateWinnerResult_spec s).1
    rw [hst]
    simp only [true_iff]
    intro t ht hlt
    have hts : teamCanScore s t = false := by
      have h2 : ∀ x ∈ List.range s.config.teamCount, ¬teamCanScore s x = true := by
        rw [← List.any_eq_false]
        simpa [canAnyTeamScore] using h
      have := h2 t (List.mem_range.mpr ht)
      simpa using this
    unfold teamCanScore at hts
    rw [if_neg (by omega)] at hts
    exact hts

theorem refillDeckIfEmpty_eq (s : GameState)
    (reshuffle : List CardCode → List CardCode) :
    ∃ ps dk, refillDeckIfEmpty s reshuffle = { s with players := ps, deck := dk } := by
  unfold refillDeckIfEmpty
  split
  · exact ⟨_, _, rfl⟩
  · exact ⟨s.players, s.deck, rfl⟩

theorem drawOneCard_eq (s : GameState) (playerId : String) :
    ∃ ps dk, drawOneCard s playerId = { s with players := ps, deck := dk } := by
  unfold drawOneCard
  split
  · exact ⟨_, _, rfl⟩
  · exact ⟨s.players, s.deck, rfl⟩

/-- The draw bookkeeping only touches players, deck, the turn flags and the
current-player index. -/
theorem drawEndTurn_eq (s : GameState) (playerId : String)
    (reshuffle : List CardCode → List CardCode) :
    ∃ ps dk idx,
      drawEndTurn s playerId reshuffle =
        { s with players := ps,
                 deck := dk,
                 currentPlayerIndex := idx,
                 pendingDraw := false,
                 deadCardReplacedThisTurn := false,
                 lastRemovedCell := none } := by
  obtain ⟨ps1, dk1, h1⟩ := refillDeckIfEmpty_eq s reshuffle
  obtain ⟨ps2, dk2, h2⟩ := drawOneCard_eq (refillDeckIfEmpty s reshuffle) playerId
  rw [h1] at h2
  unfold drawEndTurn
  rw [h1, h2]
  exact ⟨ps2, dk2, _, rfl⟩

/-- The stalemate check after the turn advances reads only fields the draw
bookkeeping does not touch, so it agrees with the check on the pre-draw
state. -/
theorem checkStalemate_drawEndTurn (s : GameState) (playerId : String)
    (reshuffle : List CardCode → List CardCode) :
    checkStalemate (drawEndTurn s playerId reshuffle) = checkStalemate s := by
  obtain ⟨ps, dk, idx, heq⟩ := drawEndTurn_eq s playerId reshuffle
  rw [heq]
  rfl

/-- C1 counterexample: in `staleTieState` the draw action triggers a
stalemate with both teams tied at the maximal count 2; team 0 reached that
count at timestamp 0 and team 1 only at timestamp 5, so by the claimed
"earliest timestamp wins" tie-break team 0 should win — but the engine
declares team 1 the winner, because `timestamps[max - 1] || Infinity`
treats the falsy timestamp 0 as `Infinity`. -/
theorem C1_counterexample_zero_timestamp_loses_tiebreak :
    (applyMove staleTieState "p0" GameAction.draw 777 id).2.phase =
        GamePhase.finished ∧
    teamSequenceCount staleTieState 0 = maxSequenceCount staleTieState ∧
    teamSequenceCount staleTieState 1 = maxSequenceCount staleTieState ∧
    reachedCountAt staleTieState 0 (maxSequenceCount staleTieState) = some 0 ∧
    reachedCountAt staleTieState 1 (maxSequenceCount staleTieState) = some 5 ∧
    (applyMove staleTieState "p0" GameAction.draw 777 id).2.winnerTeamIndex =
        some 1 := by
  refine ⟨by decide, by decide, by decide, by decide, by decide, by decide⟩

/-- C1 (amended): for every playing-phase state and legal draw action, the
stalemate check runs on the post-draw state and agrees with the check on
the pre-draw state; it reports a stalemate exactly when no team below the
win threshold can still complete a valid sequence; without a stalemate the
draw just ends the turn; with one, the game finishes and the winner has
the highest current sequence count, a tie broken by the earliest value of
`timestamps[max - 1] || Infinity`, which treats both a missing entry and
the falsy timestamp 0 as `Infinity`, and team 0 wins when every team has
zero sequences. -/
theorem C1_draw_stalemate_resolution
    (s : GameState) (playerId : String) (now : Nat)
    (reshuffle : List CardCode → List CardCode)
    (hphase : s.phase = GamePhase.playing)
    (hv : (isLegalMove s playerId GameAction.draw).valid = true) :
    checkStalemate (drawEndTurn s playerId reshuffle) = checkStalemate s ∧
    ((checkStalemate s).isStalemate = true ↔
      ∀ t, t < s.config.teamCount →
        teamSequenceCount s t < s.config.sequencesToWin →
        canTeamCompleteSequence s.boardChips t (alGetD s.lockedCells t [])
          (teamSequenceCount s t) s.config.sequenceLength = false) ∧
    ((checkStalemate s).isStalemate = false →
      applyMove s playerId GameAction.draw now reshuffle =
        ({ success := true, action := some GameAction.draw,
           playerId := some playerId }, drawEndTurn s playerId reshuffle)) ∧
    ((checkStalemate s).isStalemate = true →
      (applyMove s playerId GameAction.draw now reshuffle).2.phase =
        GamePhase.finished ∧
      ∃ w,
        (applyMove s playerId GameAction.draw now reshuffle).2.winnerTeamIndex
          = some w ∧
        (maxSequenceCount s = 0 → w = 0) ∧
        (0 < maxSequenceCount s →
          w < s.config.teamCount ∧
          teamSequenceCount s w = maxSequenceCount s ∧
          ∀ t, t < s.config.teamCount →
            teamSequenceCount s t = maxSequenceCount s →
            ltInfinity (adjustedReachedCountAt s t (maxSequenceCount s))
              (adjustedReachedCountAt s w (maxSequenceCount s)) = false)) := by
  obtain ⟨player, hfind⟩ := isLegalMove_valid_find s playerId GameAction.draw hv
  obtain ⟨ps, dk, idx, heq⟩ := drawEndTurn_eq s playerId reshuffle
  have hph1 : (drawEndTurn s playerId reshuffle).phase = GamePhase.playing := by
    rw [heq]
    exact hphase
  have hcs := checkStalemate_drawEndTurn s playerId reshuffle
  refine ⟨hcs, checkStalemate_isStalemate_iff s, ?_, ?_⟩
  · intro hns
    rcases hW : (checkStalemate s).winnerTeamIndex with _ | w
    all_goals
      simp only [applyMove, hv, Bool.not_true, Bool.false_eq_true, if_false,
        hfind, hph1, beq_self_eq_true, if_true, hcs, hns, hW]
  · intro hst
    have hcsEq : checkStalemate s = stalemateWinnerResult s := by
      by_cases h : canAnyTeamScore s = true
      · exfalso
        unfold checkStalemate at hst
        rw [if_pos h] at hst
        exact absurd hst (by simp)
      · unfold checkStalemate
        rw [if_neg h]
    obtain ⟨hsp1, w, hw, hw0, hwpos⟩ := stalemateWinnerResult_spec s
    have hWEq : (checkStalemate s).winnerTeamIndex = some w := by
      rw [hcsEq]
      exact hw
    refine ⟨?_, w, ?_, ?_, ?_⟩
    · simp only [applyMove, hv, Bool.not_true, Bool.false_eq_true, if_false,
        hfind, hph1, beq_self_eq_true, if_true, hcs, hst, hWEq]
    · simp only [applyMove, hv, Bool.not_true, Bool.false_eq_true, if_false,
        hfind, hph1, beq_self_eq_true, if_true, hcs, hst, hWEq]
    · exact hw0
    · exact hwpos

/-- Witness: the amended draw/stalemate theorem applied at the concrete
tied stalemate fixture. -/
theorem C1_draw_stalemate_resolution_witness :
    checkStalemate (drawEndTurn staleTieState "p0" id) =
        checkStalemate staleTieState ∧
    ((checkStalemate staleTieState).isStalemate = true ↔
      ∀ t, t < staleTieState.config.teamCount →
        teamSequenceCount staleTieState t <
          staleTieState.config.sequencesToWin →
        canTeamCompleteSequence staleTieState.boardChips t
          (alGetD staleTieState.lockedCells t [])
          (teamSequenceCount staleTieState t)
          staleTieState.config.sequenceLength = false) ∧
    ((checkStalemate staleTieState).isStalemate = false →
      applyMove staleTieState "p0" GameAction.draw 777 id =
        ({ success := true, action := some GameAction.draw,
           playerId := some "p0" }, drawEndTurn staleTieState "p0" id)) ∧
    ((checkStalemate staleTieState).isStalemate = true →
      (applyMove staleTieState "p0" GameAction.draw 777 id).2.phase =
        GamePhase.finished ∧
      ∃ w,
        (applyMove staleTieState "p0" GameAction.draw 777 id).2.winnerTeamIndex
          = some w ∧
        (maxSequenceCount staleTieState = 0 → w = 0) ∧
        (0 < maxSequenceCount staleTieState →
          w < staleTieState.config.teamCount ∧
          teamSequenceCount staleTieState w = maxSequenceCount staleTieState ∧
          ∀ t, t < staleTieState.config.teamCount →
            teamSequenceCount staleTieState t =
              maxSequenceCount staleTieState →
            ltInfinity
              (adjustedReachedCountAt staleTieState t
                (maxSequenceCount staleTieState))
              (adjustedReachedCountAt staleTieState w
                (maxSequenceCount staleTieState)) = false)) :=
  C1_draw_stalemate_resolution staleTieState "p0" 777 id (by decide) (by decide)

end Seq4F
